import Mathlib

/-!
# Verification of the AR Dashboard cleaning and aggregation pipeline

Shallow embedding of the data model (`models/ar_model.py`) and the
projection controller (`controllers/projection_controller.py`) of the
AR_Dashboard repository, together with proofs of the specified
properties.

Monetary values are modelled as exact rationals (`ℚ`); the Python code
uses IEEE floats, but every property checked here is an exact identity,
inequality or rounding bound that is insensitive to that difference.
A pandas table is modelled as a `List Row` with the post-cleaning
string/number fields of one invoice row; `NaN`-freedom of the string
columns holds in the real pipeline because the CSV is read with
`dtype=str, keep_default_na=False` and all relevant columns are passed
through `astype(str)`.
-/

namespace ARDash

/-! ## Character-list helpers (Python `str.strip`, `str.lower`, `in`) -/

/-- Leading-whitespace removal, as in Python `str.strip`'s left side. -/
def dropWS (l : List Char) : List Char := l.dropWhile Char.isWhitespace

/-- Both-ends whitespace removal: Python `str.strip()` /
`pandas.Series.str.strip()`. -/
def trimList (l : List Char) : List Char :=
  ((dropWS l).reverse.dropWhile Char.isWhitespace).reverse

/-- `str.strip()` on a `String`. -/
def strip (s : String) : String := ⟨trimList s.data⟩

/-- `str.lower()` character data (ASCII lowering, which is all the
source data uses). -/
def lowerData (s : String) : List Char := s.data.map Char.toLower

/-- `str.lower()` on a `String`. -/
def lowerStr (s : String) : String := ⟨lowerData s⟩

/-- `s.strip().lower()` — the normalisation applied to both sides of
every case/whitespace-insensitive comparison in the controller. -/
def norm (s : String) : String := ⟨(trimList s.data).map Char.toLower⟩

/-- Does `hay` start with `needle`? -/
def startsList : List Char → List Char → Bool
  | [], _ => true
  | _ :: _, [] => false
  | a :: as, b :: bs => a = b && startsList as bs

/-- Python's substring test `needle in hay`. -/
def hasSub : List Char → List Char → Bool
  | n, [] => n.isEmpty
  | n, c :: cs => startsList n (c :: cs) || hasSub n cs

/-! ## Numeric string parsing (`pd.to_numeric(errors="coerce")`)

`pd.to_numeric` accepts an optional sign, digits with at most one
decimal point, an optional exponent, and surrounding whitespace;
anything else coerces to NaN (here: `none`).  Infinities/NaN literals
are not representable in `ℚ` and are modelled as parse failures; no
claim depends on them. -/

/-- Consume a maximal run of decimal digits, returning the accumulated
value, the number of digits consumed so far, and the rest. -/
def takeDigits (acc cnt : ℕ) : List Char → ℕ × ℕ × List Char
  | [] => (acc, cnt, [])
  | c :: cs =>
    if c.isDigit then takeDigits (10 * acc + (c.toNat - 48)) (cnt + 1) cs
    else (acc, cnt, c :: cs)

/-- Read an optional leading sign; `true` means negative. -/
def readSign : List Char → Bool × List Char
  | [] => (false, [])
  | c :: r => if c = '-' then (true, r) else if c = '+' then (false, r) else (false, c :: r)

/-- Parse an optional exponent suffix after the mantissa `m`. -/
def parseExpPart (m : ℚ) : List Char → Option ℚ
  | [] => some m
  | c :: r =>
    if c = 'e' ∨ c = 'E' then
      let sr := readSign r
      let d := takeDigits 0 0 sr.2
      if d.2.1 = 0 ∨ d.2.2 ≠ [] then none
      else some (if sr.1 then m / 10 ^ d.1 else m * 10 ^ d.1)
    else none

/-- Parse an unsigned decimal literal (digits, optional fraction,
optional exponent). -/
def parseUnsigned (l : List Char) : Option ℚ :=
  let ip := takeDigits 0 0 l
  match ip.2.2 with
  | '.' :: r2 =>
    let fp := takeDigits 0 0 r2
    if ip.2.1 + fp.2.1 = 0 then none
    else parseExpPart ((ip.1 * 10 ^ fp.2.1 + fp.1 : ℚ) / 10 ^ fp.2.1) fp.2.2
  | _ => if ip.2.1 = 0 then none else parseExpPart (ip.1 : ℚ) ip.2.2

/-- `pd.to_numeric(x, errors="coerce")` on one cell (whitespace
tolerated around the literal). -/
def parseNum? (l : List Char) : Option ℚ :=
  let t := trimList l
  let sr := readSign t
  match parseUnsigned sr.2 with
  | none => none
  | some v => some (if sr.1 then -v else v)

/-! ## `ARDataModel._parse_monetary` -/

/-- The parenthesised-negative test of `_parse_monetary`:
`cleaned.str.startswith("(") & cleaned.str.endswith(")")` applied after
the initial strip. -/
def parenFlag (s : String) : Bool :=
  let c0 := trimList s.data
  (c0.head? = some '(') && (c0.getLast? = some ')')

/-- The string normalisation of `_parse_monetary` before the numeric
parse: strip, remove `(` and `)`, remove `,`, and replace an exact
`"-"` or `""` by `"0"`. -/
def monetaryBody (s : String) : List Char :=
  let c0 := trimList s.data
  let c1 := c0.filter (fun c => !(c = '(') && !(c = ')'))
  let c2 := c1.filter (fun c => !(c = ','))
  if c2 = ['-'] then ['0'] else if c2 = [] then ['0'] else c2

/-- `ARDataModel._parse_monetary` on one cell: the parse-or-zero
pipeline with parenthesised negatives. -/
def parseMonetary (s : String) : ℚ :=
  let v := (parseNum? (monetaryBody s)).getD 0
  if parenFlag s then -v else v

/-- Decimal digit character. -/
def digitChar (d : ℕ) : Char := Char.ofNat (48 + d)

/-- Decimal digits of a natural number, most significant first. -/
def natDigs (n : ℕ) : List Char :=
  if h : n < 10 then [digitChar n]
  else natDigs (n / 10) ++ [digitChar (n % 10)]
  decreasing_by exact Nat.div_lt_self (by omega) (by omega)

/-- The decimal rendering `str(i)` that `astype(str)` produces for an
integer-valued numeric cell. -/
def intStr (i : ℤ) : String :=
  if i < 0 then ⟨'-' :: natDigs i.natAbs⟩ else ⟨natDigs i.natAbs⟩

example : parseMonetary "(17,033)" = -17033 := by decide
example : parseMonetary "9,452" = 9452 := by decide
example : parseMonetary "-" = 0 := by decide
example : parseMonetary "" = 0 := by decide
example : parseMonetary "abc" = 0 := by decide
example : parseMonetary "-12" = -12 := by decide

/-! ## Whitespace / trimming lemmas -/

lemma dropWhile_ws_append {p : List Char} (hp : ∀ c ∈ p, c.isWhitespace) (l : List Char) :
    (p ++ l).dropWhile Char.isWhitespace = l.dropWhile Char.isWhitespace := by
  induction p with
  | nil => rfl
  | cons c cs ih =>
    simp only [List.cons_append, List.dropWhile_cons, hp c (by simp), if_true]
    exact ih fun d hd => hp d (by simp [hd])

lemma trimList_append_left {p : List Char} (hp : ∀ c ∈ p, c.isWhitespace) (l : List Char) :
    trimList (p ++ l) = trimList l := by
  simp only [trimList, dropWS, dropWhile_ws_append hp]

lemma trimList_append_right {q : List Char} (hq : ∀ c ∈ q, c.isWhitespace) (l : List Char) :
    trimList (l ++ q) = trimList l := by
  simp only [trimList, dropWS, List.dropWhile_append]
  rcases h : l.dropWhile Char.isWhitespace with _ | ⟨x, xs⟩
  · simp only [List.isEmpty_nil, if_true]
    rw [List.dropWhile_eq_nil_iff.2 fun a ha => hq a ha]
  · simp only [List.isEmpty_cons, if_false, Bool.false_eq_true]
    rw [List.reverse_append]
    rw [dropWhile_ws_append (fun c hc => hq c (List.mem_reverse.1 hc))]

lemma trimList_pad {p q : List Char} (hp : ∀ c ∈ p, c.isWhitespace)
    (hq : ∀ c ∈ q, c.isWhitespace) (l : List Char) :
    trimList (p ++ l ++ q) = trimList l := by
  rw [List.append_assoc, trimList_append_left hp, trimList_append_right hq]

lemma trimList_decomp (l : List Char) :
    ∃ p q, (∀ c ∈ p, c.isWhitespace) ∧ (∀ c ∈ q, c.isWhitespace) ∧
      l = p ++ trimList l ++ q := by
  refine ⟨l.takeWhile Char.isWhitespace,
    ((dropWS l).reverse.takeWhile Char.isWhitespace).reverse,
    fun c hc => List.mem_takeWhile_imp hc,
    fun c hc => List.mem_takeWhile_imp (List.mem_reverse.1 hc), ?_⟩
  conv_lhs => rw [← List.takeWhile_append_dropWhile Char.isWhitespace l]
  rw [List.append_assoc]
  congr 1
  show dropWS l = trimList l ++ _
  conv_lhs => rw [← List.reverse_reverse (dropWS l),
    ← List.takeWhile_append_dropWhile Char.isWhitespace (dropWS l).reverse]
  rw [List.reverse_append]
  rfl

lemma trimList_of_ends {a b : Char} (ha : ¬a.isWhitespace) (hb : ¬b.isWhitespace)
    (l : List Char) : trimList (a :: l ++ [b]) = a :: l ++ [b] := by
  have h1 : dropWS (a :: l ++ [b]) = a :: l ++ [b] := by
    simp only [dropWS, List.cons_append, List.dropWhile_cons]
    rw [if_neg (by simpa using ha)]
  have h2 : (a :: l ++ [b]).reverse = b :: (a :: l).reverse := by simp
  show ((dropWS (a :: l ++ [b])).reverse.dropWhile Char.isWhitespace).reverse = _
  rw [h1, h2, List.dropWhile_cons, if_neg (by simpa using hb), ← h2,
    List.reverse_reverse]

lemma trimList_eq_self {l : List Char} (h : ∀ c ∈ l, ¬c.isWhitespace) :
    trimList l = l := by
  have h1 : dropWS l = l := by
    rcases l with _ | ⟨c, cs⟩
    · rfl
    · simp only [dropWS, List.dropWhile_cons]
      rw [if_neg (by simpa using h c (by simp))]
  simp only [trimList, h1]
  rcases hr : l.reverse with _ | ⟨c, cs⟩
  · simp at hr; simp [hr]
  · rw [List.dropWhile_cons,
      if_neg (by simpa using h c (by rw [← List.mem_reverse, hr]; simp))]
    rw [← hr, List.reverse_reverse]

/-! ## Parsing helper lemmas -/

lemma parseUnsigned_nil : parseUnsigned [] = none := rfl

lemma trimList_allWS {l : List Char} (h : ∀ c ∈ l, c.isWhitespace) :
    trimList l = [] := by
  have h0 := @trimList_pad ([] : List Char) l (by simp) h []
  simpa using h0

lemma parseNum?_allWS {l : List Char} (h : ∀ c ∈ l, c.isWhitespace) :
    parseNum? l = none := by
  simp only [parseNum?, trimList_allWS h]
  rfl

lemma parseNum?_pad {p q : List Char} (hp : ∀ c ∈ p, c.isWhitespace)
    (hq : ∀ c ∈ q, c.isWhitespace) (l : List Char) :
    parseNum? (p ++ l ++ q) = parseNum? l := by
  simp only [parseNum?, trimList_pad hp hq]

lemma parseNum?_dash : parseNum? ['-'] = none := by decide

/-! ## Decimal round-trip for integer-valued cells -/

lemma digitChar_props {d : ℕ} (h : d < 10) :
    (digitChar d).isDigit = true ∧ (digitChar d).toNat = 48 + d ∧
    (digitChar d).isWhitespace = false ∧ digitChar d ≠ '-' ∧ digitChar d ≠ '+' ∧
    digitChar d ≠ '(' ∧ digitChar d ≠ ')' ∧ digitChar d ≠ ',' := by
  interval_cases d <;> exact (by decide)

lemma natDigs_ne_nil (n : ℕ) : natDigs n ≠ [] := by
  rw [natDigs]
  split <;> simp

lemma natDigs_digits (n : ℕ) : ∀ c ∈ natDigs n, ∃ d, d < 10 ∧ c = digitChar d := by
  induction n using Nat.strong_induction_on with
  | _ n ih =>
    rw [natDigs]
    split
    · next h => intro c hc; simp at hc; exact ⟨n, h, hc⟩
    · next h =>
      intro c hc
      rcases List.mem_append.1 hc with hc1 | hc2
      · exact ih (n / 10) (Nat.div_lt_self (by omega) (by omega)) c hc1
      · simp at hc2
        exact ⟨n % 10, Nat.mod_lt _ (by omega), hc2⟩

lemma takeDigits_cons_digit {c : Char} (h : c.isDigit = true) (acc cnt : ℕ)
    (r : List Char) :
    takeDigits acc cnt (c :: r) = takeDigits (10 * acc + (c.toNat - 48)) (cnt + 1) r := by
  simp only [takeDigits, h, if_true]

lemma takeDigits_digs (n : ℕ) : ∀ acc cnt r,
    takeDigits acc cnt (natDigs n ++ r) =
      takeDigits (acc * 10 ^ (natDigs n).length + n) (cnt + (natDigs n).length) r := by
  induction n using Nat.strong_induction_on with
  | _ n ih =>
    intro acc cnt r
    rw [natDigs]
    split
    · next h =>
      obtain ⟨hd, ht, -⟩ := digitChar_props h
      rw [List.singleton_append, takeDigits_cons_digit hd, ht]
      have e1 : 10 * acc + (48 + n - 48) = acc * 10 ^ ([digitChar n]).length + n := by
        simp only [List.length_singleton, pow_one]
        omega
      have e2 : cnt + 1 = cnt + ([digitChar n]).length := by simp
      rw [e1, e2]
    · next h =>
      have h10 : n / 10 < n := Nat.div_lt_self (by omega) (by omega)
      have hmod : n % 10 < 10 := Nat.mod_lt n (by omega)
      obtain ⟨hd, ht, -⟩ := digitChar_props hmod
      rw [List.append_assoc, ih (n / 10) h10, List.singleton_append,
        takeDigits_cons_digit hd, ht]
      have hdm : 10 * (n / 10) + n % 10 = n := Nat.div_add_mod n 10
      have hm48 : 48 + n % 10 - 48 = n % 10 := by omega
      have halg : ∀ a b m : ℕ, 10 * (a + b) + m = a * 10 + (10 * b + m) := by
        intro a b m
        ring
      have e1 : 10 * (acc * 10 ^ (natDigs (n / 10)).length + n / 10) + (48 + n % 10 - 48)
          = acc * 10 ^ (natDigs (n / 10) ++ [digitChar (n % 10)]).length + n := by
        rw [List.length_append, List.length_singleton, pow_succ, hm48, halg, hdm,
          mul_assoc]
      have e2 : cnt + (natDigs (n / 10)).length + 1
          = cnt + (natDigs (n / 10) ++ [digitChar (n % 10)]).length := by
        simp only [List.length_append, List.length_singleton]
        omega
      rw [e1, e2]

lemma takeDigits_nil (acc cnt : ℕ) : takeDigits acc cnt [] = (acc, cnt, []) := rfl

lemma parseUnsigned_digs (n : ℕ) : parseUnsigned (natDigs n) = some (n : ℚ) := by
  have h0 : takeDigits 0 0 (natDigs n) = (n, (natDigs n).length, []) := by
    have := takeDigits_digs n 0 0 []
    simpa [takeDigits_nil] using this
  have hlen : (natDigs n).length ≠ 0 := by
    simpa [List.length_eq_zero] using natDigs_ne_nil n
  simp only [parseUnsigned, h0]
  rw [if_neg hlen]
  rfl

lemma natDigs_noWS (n : ℕ) : ∀ c ∈ natDigs n, ¬c.isWhitespace := by
  intro c hc
  obtain ⟨d, hd, rfl⟩ := natDigs_digits n c hc
  simp [(digitChar_props hd).2.2.1]

lemma readSign_other {c : Char} (h1 : c ≠ '-') (h2 : c ≠ '+') (r : List Char) :
    readSign (c :: r) = (false, c :: r) := by
  simp [readSign, h1, h2]

lemma parseNum?_digs (n : ℕ) : parseNum? (natDigs n) = some (n : ℚ) := by
  have htrim : trimList (natDigs n) = natDigs n := trimList_eq_self (natDigs_noWS n)
  rcases hl : natDigs n with _ | ⟨c, cs⟩
  · exact absurd hl (natDigs_ne_nil n)
  · obtain ⟨d, hd, hc⟩ := natDigs_digits n c (by rw [hl]; simp)
    obtain ⟨-, -, -, hm, hp, -⟩ := digitChar_props hd
    have hsign : readSign (c :: cs) = (false, c :: cs) :=
      readSign_other (hc ▸ hm) (hc ▸ hp) cs
    simp only [parseNum?, hl] at htrim ⊢
    rw [htrim, hsign, ← hl, parseUnsigned_digs]
    simp

lemma takeDigits_nondigit {c : Char} (h : c.isDigit = false) (acc cnt : ℕ)
    (r : List Char) : takeDigits acc cnt (c :: r) = (acc, cnt, c :: r) := by
  simp [takeDigits, h]

/-- The decimal rendering `str(x)` that `astype(str)` produces for a
fraction-valued numeric cell with integral part `n` and fractional
digits `natDigs m`. -/
def decStr (n m : ℕ) : String := ⟨natDigs n ++ '.' :: natDigs m⟩

/-- Round-trip: the decimal rendering of a fractional cell parses back
to the same value. -/
lemma parseMonetary_decStr (n m : ℕ) :
    parseMonetary (decStr n m) =
      (n : ℚ) + (m : ℚ) / 10 ^ (natDigs m).length := by
  have hdot1 : ('.' : Char).isDigit = false := by decide
  have hall : ∀ c ∈ natDigs n ++ '.' :: natDigs m, ∃ d, d < 10 ∧ c = digitChar d ∨ c = '.' := by
    intro c hc
    rcases List.mem_append.1 hc with hc | hc
    · obtain ⟨d, hd, rfl⟩ := natDigs_digits n c hc
      exact ⟨d, Or.inl ⟨hd, rfl⟩⟩
    · rcases List.mem_cons.1 hc with rfl | hc
      · exact ⟨0, Or.inr rfl⟩
      · obtain ⟨d, hd, rfl⟩ := natDigs_digits m c hc
        exact ⟨d, Or.inl ⟨hd, rfl⟩⟩
  have hws : ∀ c ∈ natDigs n ++ '.' :: natDigs m, ¬c.isWhitespace := by
    intro c hc
    obtain ⟨d, hd⟩ := hall c hc
    rcases hd with ⟨hd10, rfl⟩ | rfl
    · simp [(digitChar_props hd10).2.2.1]
    · decide
  have htrim : trimList ((decStr n m).data) = natDigs n ++ '.' :: natDigs m :=
    trimList_eq_self hws
  have hnp : (natDigs n ++ '.' :: natDigs m).filter
      (fun c => !(c = '(') && !(c = ')')) = natDigs n ++ '.' :: natDigs m := by
    rw [List.filter_eq_self]
    intro c hc
    obtain ⟨d, hd⟩ := hall c hc
    rcases hd with ⟨hd10, rfl⟩ | rfl
    · obtain ⟨-, -, -, -, -, h1, h2, -⟩ := digitChar_props hd10
      simp [h1, h2]
    · decide
  have hnc : (natDigs n ++ '.' :: natDigs m).filter (fun c => !(c = ',')) =
      natDigs n ++ '.' :: natDigs m := by
    rw [List.filter_eq_self]
    intro c hc
    obtain ⟨d, hd⟩ := hall c hc
    rcases hd with ⟨hd10, rfl⟩ | rfl
    · obtain ⟨-, -, -, -, -, -, -, h3⟩ := digitChar_props hd10
      simp [h3]
    · decide
  obtain ⟨c0, cs0, hl0⟩ : ∃ c0 cs0, natDigs n = c0 :: cs0 := by
    rcases hl : natDigs n with _ | ⟨c0, cs0⟩
    · exact absurd hl (natDigs_ne_nil n)
    · exact ⟨c0, cs0, rfl⟩
  obtain ⟨d0, hd0, hcd0⟩ := natDigs_digits n c0 (by rw [hl0]; simp)
  obtain ⟨-, -, -, hm0, hp0, hop0, -, -⟩ := digitChar_props hd0
  have hflag : parenFlag (decStr n m) = false := by
    simp [parenFlag, htrim, hl0, hcd0 ▸ hop0]
  have hne_dash : natDigs n ++ '.' :: natDigs m ≠ ['-'] := by
    rw [hl0]
    intro hcon
    rw [List.cons_append, List.cons_eq_cons] at hcon
    exact (digitChar_props hd0).2.2.2.1 (hcd0.symm.trans hcon.1)
  have hbody : monetaryBody (decStr n m) = natDigs n ++ '.' :: natDigs m := by
    simp only [monetaryBody, htrim, hnp, hnc]
    rw [if_neg hne_dash, if_neg (by simp)]
  have hsign : readSign (natDigs n ++ '.' :: natDigs m) =
      (false, natDigs n ++ '.' :: natDigs m) := by
    rw [hl0, List.cons_append]
    exact readSign_other (hcd0 ▸ hm0) (hcd0 ▸ hp0) _
  have hip : takeDigits 0 0 (natDigs n ++ '.' :: natDigs m) =
      (n, (natDigs n).length, '.' :: natDigs m) := by
    rw [takeDigits_digs, takeDigits_nondigit hdot1]
    simp
  have hfp : takeDigits 0 0 (natDigs m) = (m, (natDigs m).length, []) := by
    have := takeDigits_digs m 0 0 []
    simpa [takeDigits_nil] using this
  have hcnt : (natDigs n).length + (natDigs m).length ≠ 0 := by
    have := natDigs_ne_nil n
    simp only [ne_eq, Nat.add_eq_zero, not_and]
    intro hcon
    rw [List.length_eq_zero] at hcon
    exact absurd hcon this
  have hval : parseNum? (natDigs n ++ '.' :: natDigs m) =
      some (((n : ℚ) * 10 ^ (natDigs m).length + (m : ℚ)) / 10 ^ (natDigs m).length) := by
    have htrim2 : trimList (natDigs n ++ '.' :: natDigs m) =
        natDigs n ++ '.' :: natDigs m := trimList_eq_self hws
    simp only [parseNum?, htrim2, hsign]
    simp only [parseUnsigned, hip, hfp]
    rw [if_neg hcnt]
    rfl
  rw [show parseMonetary (decStr n m) =
      (if parenFlag (decStr n m) then
        -((parseNum? (monetaryBody (decStr n m))).getD 0)
      else (parseNum? (monetaryBody (decStr n m))).getD 0) from rfl,
    hflag, hbody, hval]
  simp only [if_false, Bool.false_eq_true, Option.getD_some]
  have hpw : (10 : ℚ) ^ (natDigs m).length ≠ 0 := pow_ne_zero _ (by norm_num)
  field_simp

lemma parseMonetary_body_eq {s t : String} (h : trimList s.data = trimList t.data) :
    parseMonetary s = parseMonetary t := by
  simp only [parseMonetary, parenFlag, monetaryBody, h]

/-- Round-trip: the decimal rendering of an integer cell parses back to
the same value. -/
lemma parseMonetary_intStr (i : ℤ) : parseMonetary (intStr i) = (i : ℚ) := by
  have hnp : ∀ n : ℕ, (natDigs n).filter (fun c => !(c = '(') && !(c = ')')) = natDigs n := by
    intro n
    rw [List.filter_eq_self]
    intro c hc
    obtain ⟨d, hd, rfl⟩ := natDigs_digits n c hc
    obtain ⟨-, -, -, -, -, h1, h2, -⟩ := digitChar_props hd
    simp [h1, h2]
  have hnc : ∀ n : ℕ, (natDigs n).filter (fun c => !(c = ',')) = natDigs n := by
    intro n
    rw [List.filter_eq_self]
    intro c hc
    obtain ⟨d, hd, rfl⟩ := natDigs_digits n c hc
    obtain ⟨-, -, -, -, -, -, -, h3⟩ := digitChar_props hd
    simp [h3]
  have hdig_ne_dash : ∀ n : ℕ, natDigs n ≠ ['-'] := by
    intro n hcon
    have : ('-' : Char) ∈ natDigs n := by rw [hcon]; simp
    obtain ⟨d, hd, hc⟩ := natDigs_digits n _ this
    exact (digitChar_props hd).2.2.2.1 hc.symm
  by_cases hi : i < 0
  · set n := i.natAbs with hn
    have hdata : (intStr i).data = '-' :: natDigs n := by
      simp [intStr, if_pos hi]
    have hws : ∀ c ∈ '-' :: natDigs n, ¬c.isWhitespace := by
      intro c hc
      rcases List.mem_cons.1 hc with rfl | hc
      · decide
      · exact natDigs_noWS n c hc
    have htrim : trimList ((intStr i).data) = '-' :: natDigs n := by
      rw [hdata]; exact trimList_eq_self hws
    have hflag : parenFlag (intStr i) = false := by
      simp [parenFlag, htrim]
    have h1 : ('-' :: natDigs n).filter (fun c => !(c = '(') && !(c = ')')) =
        '-' :: natDigs n := by
      rw [List.filter_cons, if_pos (by decide), hnp n]
    have h2 : ('-' :: natDigs n).filter (fun c => !(c = ',')) = '-' :: natDigs n := by
      rw [List.filter_cons, if_pos (by decide), hnc n]
    have hne1 : ('-' :: natDigs n) ≠ ['-'] := by
      intro hcon
      rw [List.cons_eq_cons] at hcon
      exact natDigs_ne_nil n hcon.2
    have hbody : monetaryBody (intStr i) = '-' :: natDigs n := by
      simp only [monetaryBody, htrim, h1, h2]
      rw [if_neg hne1, if_neg (by simp)]
    have hval : parseNum? ('-' :: natDigs n) = some (-(n : ℚ)) := by
      have htrim2 : trimList ('-' :: natDigs n) = '-' :: natDigs n :=
        trimList_eq_self hws
      have hsign : readSign ('-' :: natDigs n) = (true, natDigs n) := by
        simp [readSign]
      simp only [parseNum?, htrim2, hsign]
      simp [parseUnsigned_digs]
    simp only [parseMonetary, hflag, hbody, hval, if_false, Bool.false_eq_true,
      Option.getD_some]
    have hcast : ((n : ℕ) : ℚ) = -(i : ℚ) := by
      rw [hn, Int.cast_natAbs, abs_of_neg hi]
      push_cast
      ring
    rw [hcast, neg_neg]
  · set n := i.natAbs with hn
    have hdata : (intStr i).data = natDigs n := by
      simp [intStr, if_neg hi]
    have htrim : trimList ((intStr i).data) = natDigs n := by
      rw [hdata]; exact trimList_eq_self (natDigs_noWS n)
    have hhead : ∃ c cs, natDigs n = c :: cs ∧ c ≠ '(' := by
      rcases hl : natDigs n with _ | ⟨c, cs⟩
      · exact absurd hl (natDigs_ne_nil n)
      · obtain ⟨d, hd, hc⟩ := natDigs_digits n c (by rw [hl]; simp)
        exact ⟨c, cs, rfl, hc ▸ (digitChar_props hd).2.2.2.2.2.1⟩
    obtain ⟨c, cs, hl, hcp⟩ := hhead
    have hflag : parenFlag (intStr i) = false := by
      simp [parenFlag, htrim, hl, hcp]
    have hbody : monetaryBody (intStr i) = natDigs n := by
      simp only [monetaryBody, htrim, hnp, hnc]
      rw [if_neg (hdig_ne_dash n), if_neg (natDigs_ne_nil n)]
    simp only [parseMonetary, hflag, hbody, parseNum?_digs, if_false,
      Bool.false_eq_true, Option.getD_some]
    rw [hn, Int.cast_natAbs, abs_of_nonneg (le_of_not_lt hi)]

/-- **C1** (monetary normalization, `ARDataModel._parse_monetary`):
parsing is total into `ℚ` (the definition `parseMonetary` is a total
function, i.e. it never raises); surrounding whitespace is trimmed;
wrapping a value in parentheses negates the value of the unwrapped
string (for any input that is not itself parenthesis-wrapped after
trimming), e.g. `"(17,033)" ↦ -17033`; thousands-separator commas are
removed (`"9,452" ↦ 9452`); `"-"` and `""` give `0`; any cell whose
normalised body still fails the numeric parse gives `0`; and an
already-numeric cell (rendered back to text by `astype(str)`, in
integer form `intStr` or decimal form `decStr`) passes through
unchanged. -/
theorem claim_C1_monetary_normalization :
    (∀ s : String, parseMonetary (" " ++ s ++ " ") = parseMonetary s) ∧
    (∀ s : String, parenFlag s = false →
      parseMonetary ("(" ++ s ++ ")") = -parseMonetary s) ∧
    parseMonetary "(17,033)" = -17033 ∧
    parseMonetary "9,452" = 9452 ∧
    parseMonetary "-" = 0 ∧
    parseMonetary "" = 0 ∧
    (∀ s : String, parseNum? (monetaryBody s) = none → parseMonetary s = 0) ∧
    (∀ i : ℤ, parseMonetary (intStr i) = (i : ℚ)) ∧
    (∀ n m : ℕ, parseMonetary (decStr n m) =
      (n : ℚ) + (m : ℚ) / 10 ^ (natDigs m).length) := by
  refine ⟨?_, ?_, by decide, by decide, by decide, by decide, ?_,
    parseMonetary_intStr, parseMonetary_decStr⟩
  · intro s
    apply parseMonetary_body_eq
    have hdata : (" " ++ s ++ " ").data = [' '] ++ s.data ++ [' '] := by
      simp [String.data_append]
    rw [hdata, trimList_pad (by simp) (by simp)]
  · intro s hflag
    obtain ⟨p, q, hp, hq, hdecomp⟩ := trimList_decomp s.data
    have hpnp : ∀ l : List Char, (∀ c ∈ l, c.isWhitespace) →
        l.filter (fun c => !(c = '(') && !(c = ')')) = l := by
      intro l hl
      rw [List.filter_eq_self]
      intro c hc
      have hw := hl c hc
      have h1 : c ≠ '(' := fun hcon => by rw [hcon] at hw; exact absurd hw (by decide)
      have h2 : c ≠ ')' := fun hcon => by rw [hcon] at hw; exact absurd hw (by decide)
      simp [h1, h2]
    have hpnc : ∀ l : List Char, (∀ c ∈ l, c.isWhitespace) →
        l.filter (fun c => !(c = ',')) = l := by
      intro l hl
      rw [List.filter_eq_self]
      intro c hc
      have hw := hl c hc
      have h1 : c ≠ ',' := fun hcon => by rw [hcon] at hw; exact absurd hw (by decide)
      simp [h1]
    set f1 := (trimList s.data).filter (fun c => !(c = '(') && !(c = ')')) with hf1
    set f2 := f1.filter (fun c => !(c = ',')) with hf2
    have hdata : ("(" ++ s ++ ")").data = '(' :: s.data ++ [')'] := by
      simp [String.data_append]
    have htrimw : trimList ('(' :: s.data ++ [')']) = '(' :: s.data ++ [')'] :=
      trimList_of_ends (by decide) (by decide) _
    have hgl : ('(' :: (s.data ++ [')'])).getLast? = some ')' := by
      rw [← List.cons_append, List.getLast?_concat]
    have hflagw : parenFlag ("(" ++ s ++ ")") = true := by
      simp only [parenFlag, hdata, htrimw]
      simp [hgl]
    have hc1w : ('(' :: s.data ++ [')']).filter (fun c => !(c = '(') && !(c = ')')) =
        p ++ f1 ++ q := by
      conv_lhs => rw [List.cons_append, List.filter_cons, show s.data = p ++ trimList s.data ++ q from hdecomp]
      simp only [List.filter_append]
      rw [hpnp p hp, hpnp q hq]
      norm_num
    have hc2w : (p ++ f1 ++ q).filter (fun c => !(c = ',')) = p ++ f2 ++ q := by
      simp only [List.filter_append]
      rw [hpnc p hp, hpnc q hq]
    have hbodyS : monetaryBody s =
        if f2 = ['-'] then ['0'] else if f2 = [] then ['0'] else f2 := rfl
    have hbodyW : monetaryBody ("(" ++ s ++ ")") =
        if p ++ f2 ++ q = ['-'] then ['0']
        else if p ++ f2 ++ q = [] then ['0'] else p ++ f2 ++ q := by
      simp only [monetaryBody, hdata, htrimw, hc1w, hc2w]
    have hvals : (parseNum? (monetaryBody ("(" ++ s ++ ")"))).getD 0 =
        (parseNum? (monetaryBody s)).getD 0 := by
      by_cases h1 : f2 = ['-']
      · rw [hbodyS, if_pos h1, hbodyW]
        by_cases h2 : p ++ f2 ++ q = ['-']
        · rw [if_pos h2]
        · rw [if_neg h2, if_neg (by rw [h1]; simp)]
          rw [h1, parseNum?_pad hp hq, parseNum?_dash]
          decide
      · by_cases h2 : f2 = []
        · rw [hbodyS, if_neg h1, if_pos h2, hbodyW, h2]
          have hwpq : ∀ c ∈ p ++ ([] : List Char) ++ q, c.isWhitespace := by
            intro c hc
            simp only [List.append_nil, List.mem_append] at hc
            rcases hc with hc | hc
            · exact hp c hc
            · exact hq c hc
          have hnd : p ++ ([] : List Char) ++ q ≠ ['-'] := by
            intro hcon
            have : ('-' : Char) ∈ p ++ ([] : List Char) ++ q := by rw [hcon]; simp
            exact absurd (hwpq '-' this) (by decide)
          rw [if_neg hnd]
          by_cases h3 : p ++ ([] : List Char) ++ q = []
          · rw [if_pos h3]
          · rw [if_neg h3, parseNum?_allWS hwpq]
            decide
        · rw [hbodyS, if_neg h1, if_neg h2, hbodyW]
          have hne : p ++ f2 ++ q ≠ [] := by
            intro hcon
            simp only [List.append_eq_nil] at hcon
            exact h2 hcon.1.2
          have hnd : p ++ f2 ++ q ≠ ['-'] := by
            intro hcon
            have hlen := congrArg List.length hcon
            simp only [List.length_append, List.length_cons, List.length_nil] at hlen
            have hf2len : f2.length ≠ 0 := by
              simpa [List.length_eq_zero] using h2
            have hple : p.length = 0 ∧ q.length = 0 ∧ f2.length = 1 := by omega
            have hpn : p = [] := List.length_eq_zero.1 hple.1
            have hqn : q = [] := List.length_eq_zero.1 hple.2.1
            rw [hpn, hqn] at hcon
            simp at hcon
            exact h1 hcon
          rw [if_neg hnd, if_neg hne, parseNum?_pad hp hq]
    simp only [parseMonetary, hflagw, hflag, if_true, if_false, Bool.false_eq_true]
    rw [hvals]
  · intro s h
    simp only [parseMonetary, h, Option.getD_none]
    split <;> simp

/-- Concrete instantiation of the hypotheses of
`claim_C1_monetary_normalization`. -/
theorem claim_C1_witness :
    parenFlag "17,033" = false ∧
    parseMonetary ("(" ++ "17,033" ++ ")") = -parseMonetary "17,033" ∧
    parseNum? (monetaryBody "abc") = none ∧ parseMonetary "abc" = 0 :=
  ⟨by decide, claim_C1_monetary_normalization.2.1 "17,033" (by decide),
    by decide, claim_C1_monetary_normalization.2.2.2.2.2.2.1 "abc" (by decide)⟩

/-! ## The cleaned AR table

One row of the cleaned table, with the columns that the controller
reads.  After `_clean`, every one of these text columns is a string
(`astype(str)` plus `keep_default_na=False` during the read), and
`Total in USD` is a parsed monetary number. -/

structure Row where
  customerName : String
  reference : String
  newOrgName : String
  arComments : String
  arStatus : String
  remarks : String
  allocation : String
  entities : String
  projection : String
  totalUSD : ℚ
deriving DecidableEq

/-- A cleaned table: the list of invoice rows in order. -/
abbrev Table := List Row

/-- `Series.sum` of `Total in USD` over a list of rows. -/
def sumUSD (rows : List Row) : ℚ := (rows.map Row.totalUSD).sum

/-! ## `pandas.unique` (first-occurrence distinct values) -/

/-- First-occurrence distinct values, as produced by
`pandas.Series.unique()`: keep each value's first occurrence, in
order. -/
def uniqueFirst {α : Type} [DecidableEq α] : List α → List α
  | [] => []
  | a :: as => a :: (uniqueFirst as).filter (fun b => !(b = a))

lemma mem_uniqueFirst {α : Type} [DecidableEq α] (l : List α) (b : α) :
    b ∈ uniqueFirst l ↔ b ∈ l := by
  induction l with
  | nil => simp [uniqueFirst]
  | cons a as ih =>
    simp only [uniqueFirst, List.mem_cons, List.mem_filter, ih]
    by_cases hb : b = a <;> simp [hb]

lemma nodup_uniqueFirst {α : Type} [DecidableEq α] (l : List α) :
    (uniqueFirst l).Nodup := by
  induction l with
  | nil => simp [uniqueFirst]
  | cons a as ih =>
    refine List.nodup_cons.2 ⟨?_, ih.filter _⟩
    simp [List.mem_filter]

/-! ## Comparators used to model pandas / Python sorting

Python compares strings lexicographically by code point; lists/tuples
lexicographically componentwise.  `List.insertionSort` with a
non-strict (`≤`-style) comparator is the classic stable insertion
sort, which agrees with Python's stable `sorted`. -/

/-- Code-point lexicographic `≤` on character lists (Python string
comparison). -/
def lexLE : List Char → List Char → Bool
  | [], _ => true
  | _ :: _, [] => false
  | a :: as, b :: bs =>
    if a.toNat < b.toNat then true
    else if b.toNat < a.toNat then false
    else lexLE as bs

lemma lexLE_refl : ∀ l : List Char, lexLE l l = true
  | [] => rfl
  | a :: as => by simp [lexLE, lexLE_refl as]

lemma lexLE_total : ∀ a b : List Char, lexLE a b = true ∨ lexLE b a = true
  | [], _ => Or.inl rfl
  | _ :: _, [] => Or.inr rfl
  | a :: as, b :: bs => by
    by_cases h1 : a.toNat < b.toNat
    · exact Or.inl (by simp [lexLE, h1])
    · by_cases h2 : b.toNat < a.toNat
      · exact Or.inr (by simp [lexLE, h2])
      · rcases lexLE_total as bs with h | h
        · exact Or.inl (by simp [lexLE, h1, h2, h])
        · exact Or.inr (by simp [lexLE, h1, h2, h])

lemma lexLE_trans : ∀ a b c : List Char,
    lexLE a b = true → lexLE b c = true → lexLE a c = true
  | [], _, _, _, _ => rfl
  | _ :: _, [], _, h, _ => by simp [lexLE] at h
  | _ :: _, _ :: _, [], _, h => by simp [lexLE] at h
  | a :: as, b :: bs, c :: cs, hab, hbc => by
    simp only [lexLE] at hab hbc ⊢
    by_cases h1 : a.toNat < b.toNat
    · by_cases h2 : b.toNat < c.toNat
      · rw [if_pos (by omega)]
      · rw [if_neg h2] at hbc
        by_cases h3 : c.toNat < b.toNat
        · rw [if_pos h3] at hbc
          exact absurd hbc (by simp)
        · rw [if_pos (by omega)]
    · rw [if_neg h1] at hab
      by_cases h1' : b.toNat < a.toNat
      · rw [if_pos h1'] at hab
        exact absurd hab (by simp)
      · rw [if_neg h1'] at hab
        by_cases h2 : b.toNat < c.toNat
        · rw [if_pos (by omega)]
        · rw [if_neg h2] at hbc
          by_cases h3 : c.toNat < b.toNat
          · rw [if_pos h3] at hbc
            exact absurd hbc (by simp)
          · rw [if_neg h3] at hbc
            rw [if_neg (by omega), if_neg (by omega)]
            exact lexLE_trans as bs cs hab hbc

/-- Alphabetical (code-point) order on strings, used for
`sorted(list_of_strings)` and for pandas' sorted group keys. -/
def strRel (a b : String) : Prop := lexLE a.data b.data = true

instance : DecidableRel strRel := fun a b => by
  unfold strRel
  infer_instance

instance : IsTotal String strRel := ⟨fun a b => lexLE_total a.data b.data⟩

instance : IsTrans String strRel := ⟨fun a b c => lexLE_trans a.data b.data c.data⟩

/-! ## Projection categorisation (`_split_inflow_dispute`, `_sort_key`) -/

/-- `ProjectionConfig.DISPUTE_KEYWORD`. -/
def disputeKeyword : String := "Dispute"

/-- `keyword in proj.lower()` with `keyword = DISPUTE_KEYWORD.lower()`. -/
def isDispute (p : String) : Bool :=
  hasSub (lowerData disputeKeyword) (lowerData p)

/-- `_get_all_projections`: unique, non-empty (after strip) Projection
values of the table, in first-occurrence order. -/
def allProjections (t : Table) : List String :=
  uniqueFirst ((t.map Row.projection).filter (fun p => !(strip p = "")))

/-- The inflow bucket of `_split_inflow_dispute`. -/
def inflowCats (t : Table) : List String :=
  (allProjections t).filter (fun p => !(isDispute p))

/-- The dispute bucket of `_split_inflow_dispute`. -/
def disputeCats (t : Table) : List String :=
  (allProjections t).filter (fun p => isDispute p)

/-- `MONTH_MAP` of `_sort_key`, in iteration order. -/
def monthPairs : List (String × ℕ) :=
  [("jan", 1), ("feb", 2), ("mar", 3), ("apr", 4), ("may", 5), ("jun", 6),
    ("jul", 7), ("aug", 8), ("sep", 9), ("oct", 10), ("nov", 11), ("dec", 12)]

/-- `WEEK_MAP` of `_sort_key`, in iteration order. -/
def weekPairs : List (String × ℕ) :=
  [("current", 1), ("1st", 2), ("2nd", 3), ("3rd", 4), ("4th", 5), ("last", 6)]

/-- First-match-wins scan of a token→rank table; 99 when nothing
matches. -/
def scanRank : List (String × ℕ) → List Char → ℕ
  | [], _ => 99
  | (tok, r) :: rest, low => if hasSub tok.data low then r else scanRank rest low

/-- Month rank of `_sort_key`: first `MONTH_MAP` match, overridden to
98 when the label contains `"next month"`, 99 when nothing matches. -/
def monthRank (s : String) : ℕ :=
  let low := lowerData s
  let m := scanRank monthPairs low
  if hasSub ("next month").data low then 98 else m

/-- Week rank of `_sort_key`. -/
def weekRank (s : String) : ℕ := scanRank weekPairs (lowerData s)

/-- Non-strict comparison of the `_sort_key` triples
`(month_rank, week_rank, lowered label)` (Python tuple order). -/
def keyLE (a b : String) : Bool :=
  if monthRank a < monthRank b then true
  else if monthRank b < monthRank a then false
  else if weekRank a < weekRank b then true
  else if weekRank b < weekRank a then false
  else lexLE (lowerData a) (lowerData b)

/-- `keyLE` as a relation, for `List.insertionSort`. -/
def keyRel (a b : String) : Prop := keyLE a b = true

instance : DecidableRel keyRel := fun a b => by
  unfold keyRel
  infer_instance

lemma keyLE_total (a b : String) : keyLE a b = true ∨ keyLE b a = true := by
  unfold keyLE
  by_cases h1 : monthRank a < monthRank b
  · left; rw [if_pos h1]
  · by_cases h2 : monthRank b < monthRank a
    · right; rw [if_pos h2]
    · rw [if_neg h1, if_neg h2, if_neg h2, if_neg h1]
      by_cases h3 : weekRank a < weekRank b
      · left; rw [if_pos h3]
      · by_cases h4 : weekRank b < weekRank a
        · right; rw [if_pos h4]
        · rw [if_neg h3, if_neg h4, if_neg h4, if_neg h3]
          exact lexLE_total (lowerData a) (lowerData b)

lemma keyLE_trans {a b c : String} (hab : keyLE a b = true) (hbc : keyLE b c = true) :
    keyLE a c = true := by
  unfold keyLE at hab hbc ⊢
  by_cases m1 : monthRank a < monthRank b
  · by_cases m2 : monthRank b < monthRank c
    · rw [if_pos (by omega)]
    · rw [if_neg m2] at hbc
      by_cases m3 : monthRank c < monthRank b
      · rw [if_pos m3] at hbc
        exact absurd hbc (by simp)
      · rw [if_pos (by omega)]
  · rw [if_neg m1] at hab
    by_cases m1' : monthRank b < monthRank a
    · rw [if_pos m1'] at hab
      exact absurd hab (by simp)
    · rw [if_neg m1'] at hab
      by_cases m2 : monthRank b < monthRank c
      · rw [if_pos (by omega)]
      · rw [if_neg m2] at hbc
        by_cases m3 : monthRank c < monthRank b
        · rw [if_pos m3] at hbc
          exact absurd hbc (by simp)
        · rw [if_neg m3] at hbc
          rw [if_neg (by omega), if_neg (by omega)]
          by_cases w1 : weekRank a < weekRank b
          · by_cases w2 : weekRank b < weekRank c
            · rw [if_pos (by omega)]
            · rw [if_neg w2] at hbc
              by_cases w3 : weekRank c < weekRank b
              · rw [if_pos w3] at hbc
                exact absurd hbc (by simp)
              · rw [if_pos (by omega)]
          · rw [if_neg w1] at hab
            by_cases w1' : weekRank b < weekRank a
            · rw [if_pos w1'] at hab
              exact absurd hab (by simp)
            · rw [if_neg w1'] at hab
              by_cases w2 : weekRank b < weekRank c
              · rw [if_pos (by omega)]
              · rw [if_neg w2] at hbc
                by_cases w3 : weekRank c < weekRank b
                · rw [if_pos w3] at hbc
                  exact absurd hbc (by simp)
                · rw [if_neg w3] at hbc
                  rw [if_neg (by omega), if_neg (by omega)]
                  exact lexLE_trans _ _ _ hab hbc

instance : IsTotal String keyRel := ⟨keyLE_total⟩

instance : IsTrans String keyRel := ⟨fun _ _ _ => keyLE_trans⟩

/-! ## `get_weekly_inflow_summary` and the scalar rollups -/

/-- The combined display order of `get_weekly_inflow_summary`:
`sorted(inflow, key=_sort_key) + sorted(dispute)`. -/
def ordered (t : Table) : List String :=
  List.insertionSort keyRel (inflowCats t) ++
    List.insertionSort strRel (disputeCats t)

/-- The row order used by `sort_values("_sort")`: position in `ordered`
(`order_map`), with `fillna(len(ordered))` for unmapped values
(`List.indexOf` returns the length when the value is absent). -/
def wSortRel (ord : List String) (a b : String × ℚ × ℕ) : Prop :=
  ord.indexOf a.1 ≤ ord.indexOf b.1

instance (ord : List String) : DecidableRel (wSortRel ord) := fun _ _ =>
  Nat.decLe _ _

instance (ord : List String) : IsTotal (String × ℚ × ℕ) (wSortRel ord) :=
  ⟨fun _ _ => Nat.le_total _ _⟩

instance (ord : List String) : IsTrans (String × ℚ × ℕ) (wSortRel ord) :=
  ⟨fun _ _ _ => Nat.le_trans⟩

/-- `groupby("Projection")` keys (pandas sorts group keys). -/
def projGroups (t : Table) : List String :=
  List.insertionSort strRel (uniqueFirst (t.map Row.projection))

/-- The grouped aggregation of `get_weekly_inflow_summary`:
per projection, `sum` of `Total in USD` and `count` of `Reference`. -/
def weeklyGrouped (t : Table) : List (String × ℚ × ℕ) :=
  (projGroups t).map (fun p =>
    (p, sumUSD (t.filter (fun r => r.projection == p)),
      (t.filter (fun r => r.projection == p)).length))

/-- `grouped["Total Inflow (USD)"].sum()`. -/
def weeklyGrand (t : Table) : ℚ := ((weeklyGrouped t).map (fun g => g.2.1)).sum

/-- The grouped rows after `sort_values("_sort")`. -/
def weeklyRows (t : Table) : List (String × ℚ × ℕ) :=
  List.insertionSort (wSortRel (ordered t)) (weeklyGrouped t)

/-- One output row of `get_weekly_inflow_summary`. -/
structure WRow where
  projection : String
  totalInflow : ℚ
  invoiceCount : ℕ
  pctOfTotal : ℚ
deriving DecidableEq

/-- `Series.round(2)` on exact rationals. -/
def round2 (x : ℚ) : ℚ := (round (x * 100) : ℤ) / 100

/-- `get_weekly_inflow_summary`: grouped totals and counts in the
configured order, with the `% of Total` column. -/
def weeklySummary (t : Table) : List WRow :=
  (weeklyRows t).map (fun g =>
    ⟨g.1, g.2.1, g.2.2,
      if 0 < weeklyGrand t then round2 (g.2.1 / weeklyGrand t * 100) else 0⟩)

/-- `get_expected_inflow_total`: `isin(inflow_cats)` filter and sum. -/
def expectedInflowTotal (t : Table) : ℚ :=
  sumUSD (t.filter (fun r => decide (r.projection ∈ inflowCats t)))

/-- `get_dispute_total`: `isin(dispute_cats)` filter and sum. -/
def disputeTotal (t : Table) : ℚ :=
  sumUSD (t.filter (fun r => decide (r.projection ∈ disputeCats t)))

/-- `get_grand_total`. -/
def grandTotal (t : Table) : ℚ := sumUSD t

/-- A row with given projection, remarks and amount, all other
dimensions blank. -/
def mkRow (proj remarks : String) (amt : ℚ) : Row :=
  ⟨"", "", "", "", "", remarks, "", "", proj, amt⟩

/-- The week-label scenario table of the specification: the six
February labels, in scrambled input order. -/
def tableC3 : Table :=
  [mkRow "Feb Last week" "Current Due" 1, mkRow "Feb 2nd week" "Overdue" 1,
    mkRow "Feb Current week" "Current Due" 1, mkRow "Feb 4th week" "Overdue" 1,
    mkRow "Feb 1st week" "Current Due" 1, mkRow "Feb 3rd week" "Overdue" 1]

example : keyLE "Feb Current week" "Feb 1st week" = true := by decide
example : keyLE "Feb 1st week" "Feb Current week" = false := by decide
example : monthRank "Feb 3rd week" = 2 := by decide
example : monthRank "Next Month" = 98 := by decide
example : weekRank "Feb Last week" = 6 := by decide
example : isDispute "Dispute - Legal" = true := by decide
example : (weeklySummary tableC3).map WRow.projection =
    ["Feb Current week", "Feb 1st week", "Feb 2nd week", "Feb 3rd week",
      "Feb 4th week", "Feb Last week"] := by decide

/-! ## Sum bookkeeping lemmas -/

lemma sumUSD_nil : sumUSD [] = 0 := rfl

lemma sumUSD_cons (r : Row) (rs : List Row) :
    sumUSD (r :: rs) = r.totalUSD + sumUSD rs := by
  simp [sumUSD]

lemma sumUSD_filter_split (p : Row → Bool) (rows : List Row) :
    sumUSD (rows.filter p) + sumUSD (rows.filter (fun r => !(p r))) = sumUSD rows := by
  induction rows with
  | nil => simp [sumUSD]
  | cons r rs ih =>
    by_cases h : p r
    · rw [List.filter_cons, if_pos (by simp [h]), List.filter_cons,
        if_neg (by simp [h]), sumUSD_cons, sumUSD_cons]
      rw [add_assoc] at *
      rw [ih]
    · rw [List.filter_cons, if_neg (by simp [h]), List.filter_cons,
        if_pos (by simp [h]), sumUSD_cons, sumUSD_cons]
      calc sumUSD (List.filter p rs) + (r.totalUSD + sumUSD (List.filter (fun r => !p r) rs))
          = r.totalUSD + (sumUSD (List.filter p rs) +
              sumUSD (List.filter (fun r => !p r) rs)) := by ring
        _ = r.totalUSD + sumUSD rs := by rw [ih]

/-! ## Membership facts for projection categories -/

lemma mem_allProjections {t : Table} {r : Row} (hr : r ∈ t)
    (hne : strip r.projection ≠ "") : r.projection ∈ allProjections t := by
  unfold allProjections
  rw [mem_uniqueFirst]
  exact List.mem_filter.2 ⟨List.mem_map.2 ⟨r, hr, rfl⟩, by simp [hne]⟩

lemma allProjections_nonblank {t : Table} {p : String}
    (hp : p ∈ allProjections t) : strip p ≠ "" := by
  unfold allProjections at hp
  rw [mem_uniqueFirst] at hp
  have := (List.mem_filter.1 hp).2
  simpa using this

lemma allProjections_nodup (t : Table) : (allProjections t).Nodup :=
  nodup_uniqueFirst _

lemma mem_inflowCats {t : Table} {p : String} :
    p ∈ inflowCats t ↔ p ∈ allProjections t ∧ isDispute p = false := by
  unfold inflowCats
  rw [List.mem_filter]
  simp

lemma mem_disputeCats {t : Table} {p : String} :
    p ∈ disputeCats t ↔ p ∈ allProjections t ∧ isDispute p = true := by
  unfold disputeCats
  rw [List.mem_filter]

/-- The projection amount of a blank-projection row is counted in the
grand total but in neither the inflow nor the dispute bucket. -/
def tableC2bad : Table := [mkRow "" "Current Due" 5]

/-- The partition scenario table of the specification. -/
def tableC2 : Table :=
  [mkRow "Feb 3rd week" "Current Due" 1000, mkRow "Feb 3rd week" "Overdue" 2000,
    mkRow "Dispute - Legal" "Credit Memo" 500, mkRow "Mar 1st week" "Future Due" 1500]

/-- **C2, counterexample**: on a cleaned table containing a row whose
`Projection` is blank, `get_expected_inflow_total() + get_dispute_total()`
differs from `get_grand_total()` — blank projections are dropped by
`_get_all_projections`, so they belong to neither bucket. -/
theorem claim_C2_counterexample :
    ¬(expectedInflowTotal tableC2bad + disputeTotal tableC2bad =
      grandTotal tableC2bad) := by
  intro hcon
  have h1 : expectedInflowTotal tableC2bad = 0 := rfl
  have h2 : disputeTotal tableC2bad = 0 := rfl
  have h3 : grandTotal tableC2bad = 5 := by
    show sumUSD tableC2bad = 5
    rw [show tableC2bad = [mkRow "" "Current Due" 5] from rfl, sumUSD_cons, sumUSD_nil]
    norm_num [mkRow]
  rw [h1, h2, h3] at hcon
  norm_num at hcon

/-- **C2 (amended)**: for every cleaned table in which no row has a
blank (whitespace-only) `Projection`, the inflow/dispute split is a
complete disjoint cover, and
`get_expected_inflow_total() + get_dispute_total() = get_grand_total()`
exactly. -/
theorem claim_C2_partition (t : Table)
    (h : ∀ r ∈ t, strip r.projection ≠ "") :
    expectedInflowTotal t + disputeTotal t = grandTotal t := by
  unfold expectedInflowTotal disputeTotal grandTotal
  have hcongr : t.filter (fun r => decide (r.projection ∈ disputeCats t)) =
      t.filter (fun r => !(decide (r.projection ∈ inflowCats t))) := by
    apply List.filter_congr
    intro r hr
    have hmem : r.projection ∈ allProjections t := mem_allProjections hr (h r hr)
    by_cases hd : isDispute r.projection = true
    · have h1 : r.projection ∈ disputeCats t := mem_disputeCats.2 ⟨hmem, hd⟩
      have h2 : r.projection ∉ inflowCats t := by
        intro hcon
        have := (mem_inflowCats.1 hcon).2
        rw [hd] at this
        exact absurd this (by simp)
      simp [h1, h2]
    · have h1 : r.projection ∉ disputeCats t := by
        intro hcon
        exact hd (mem_disputeCats.1 hcon).2
      have h2 : r.projection ∈ inflowCats t :=
        mem_inflowCats.2 ⟨hmem, by simpa using hd⟩
      simp [h1, h2]
  rw [hcongr, sumUSD_filter_split]

/-- Concrete instantiation of `claim_C2_partition` on the
specification's scenario table (4500 + 500 = 5000). -/
theorem claim_C2_witness :
    expectedInflowTotal tableC2 + disputeTotal tableC2 = grandTotal tableC2 :=
  claim_C2_partition tableC2 (by decide)

/-! ## The claimed weekly display order -/

lemma keyLE_refl (a : String) : keyLE a a = true := by
  simp [keyLE, lexLE_refl]

/-- The row order claimed for `get_weekly_inflow_summary`: a pair
`(x, y)` may appear in this order iff either both are unrecognized
(blank after strip), or `y` is unrecognized (unrecognized sorts after
all recognized values), or `x` is inflow and `y` is dispute, or both
are inflow and the `_sort_key` of `x` is `≤` that of `y`, or both are
dispute and `x ≤ y` alphabetically. -/
def claimOrd (x y : String) : Prop :=
  (strip x = "" ∧ strip y = "") ∨
  (strip x ≠ "" ∧ strip y = "") ∨
  (strip x ≠ "" ∧ isDispute x = false ∧ strip y ≠ "" ∧ isDispute y = true) ∨
  (strip x ≠ "" ∧ isDispute x = false ∧ strip y ≠ "" ∧ isDispute y = false ∧
    keyLE x y = true) ∨
  (strip x ≠ "" ∧ isDispute x = true ∧ strip y ≠ "" ∧ isDispute y = true ∧
    lexLE x.data y.data = true)

lemma claimOrd_refl (x : String) : claimOrd x x := by
  by_cases hb : strip x = ""
  · exact Or.inl ⟨hb, hb⟩
  · by_cases hd : isDispute x = true
    · exact Or.inr (Or.inr (Or.inr (Or.inr ⟨hb, hd, hb, hd, lexLE_refl _⟩)))
    · exact Or.inr (Or.inr (Or.inr (Or.inl
        ⟨hb, by simpa using hd, hb, by simpa using hd, keyLE_refl x⟩)))

lemma pairwise_claimOrd_ordered (t : Table) :
    List.Pairwise claimOrd (ordered t) := by
  unfold ordered
  rw [List.pairwise_append]
  refine ⟨?_, ?_, ?_⟩
  · have hs : List.Sorted keyRel (List.insertionSort keyRel (inflowCats t)) :=
      List.sorted_insertionSort _ _
    refine hs.imp_of_mem ?_
    intro a b ha hb hr
    rw [List.mem_insertionSort] at ha hb
    have ha' := mem_inflowCats.1 ha
    have hb' := mem_inflowCats.1 hb
    exact Or.inr (Or.inr (Or.inr (Or.inl ⟨allProjections_nonblank ha'.1, ha'.2,
      allProjections_nonblank hb'.1, hb'.2, hr⟩)))
  · have hs : List.Sorted strRel (List.insertionSort strRel (disputeCats t)) :=
      List.sorted_insertionSort _ _
    refine hs.imp_of_mem ?_
    intro a b ha hb hr
    rw [List.mem_insertionSort] at ha hb
    have ha' := mem_disputeCats.1 ha
    have hb' := mem_disputeCats.1 hb
    exact Or.inr (Or.inr (Or.inr (Or.inr ⟨allProjections_nonblank ha'.1, ha'.2,
      allProjections_nonblank hb'.1, hb'.2, hr⟩)))
  · intro a ha b hb
    rw [List.mem_insertionSort] at ha hb
    have ha' := mem_inflowCats.1 ha
    have hb' := mem_disputeCats.1 hb
    exact Or.inr (Or.inr (Or.inl ⟨allProjections_nonblank ha'.1, ha'.2,
      allProjections_nonblank hb'.1, hb'.2⟩))

lemma nodup_ordered (t : Table) : (ordered t).Nodup := by
  unfold ordered
  have h1 : (List.insertionSort keyRel (inflowCats t)).Nodup :=
    (List.perm_insertionSort keyRel _).nodup_iff.2
      ((allProjections_nodup t).filter _)
  have h2 : (List.insertionSort strRel (disputeCats t)).Nodup :=
    (List.perm_insertionSort strRel _).nodup_iff.2
      ((allProjections_nodup t).filter _)
  refine h1.append h2 ?_
  intro p hp1 hp2
  rw [List.mem_insertionSort] at hp1 hp2
  have := (mem_inflowCats.1 hp1).2
  rw [(mem_disputeCats.1 hp2).2] at this
  exact absurd this (by simp)

lemma mem_ordered {t : Table} {p : String} :
    p ∈ ordered t ↔ p ∈ allProjections t := by
  unfold ordered
  rw [List.mem_append, List.mem_insertionSort, List.mem_insertionSort]
  constructor
  · rintro (h | h)
    · exact (mem_inflowCats.1 h).1
    · exact (mem_disputeCats.1 h).1
  · intro h
    by_cases hd : isDispute p = true
    · exact Or.inr (mem_disputeCats.2 ⟨h, hd⟩)
    · exact Or.inl (mem_inflowCats.2 ⟨h, by simpa using hd⟩)

lemma projGroups_sub {t : Table} {p : String} (hp : p ∈ projGroups t) :
    p ∈ t.map Row.projection := by
  unfold projGroups at hp
  rw [List.mem_insertionSort, mem_uniqueFirst] at hp
  exact hp

lemma mem_allProjections_of_groups {t : Table} {p : String}
    (hp : p ∈ projGroups t) (hne : strip p ≠ "") : p ∈ allProjections t := by
  obtain ⟨r, hr, hrp⟩ := List.mem_map.1 (projGroups_sub hp)
  rw [← hrp]
  exact mem_allProjections hr (by rw [hrp]; exact hne)

lemma weeklySummary_pairwise (t : Table) :
    List.Pairwise claimOrd ((weeklySummary t).map WRow.projection) := by
  have hmap : (weeklySummary t).map WRow.projection =
      (weeklyRows t).map (fun g => g.1) := by
    unfold weeklySummary
    rw [List.map_map]
    rfl
  rw [hmap, List.pairwise_map]
  have hs : List.Pairwise (wSortRel (ordered t)) (weeklyRows t) :=
    List.sorted_insertionSort _ _
  refine hs.imp_of_mem ?_
  intro a b ha hb hr
  rw [weeklyRows, List.mem_insertionSort] at ha hb
  have hag : a.1 ∈ projGroups t := by
    obtain ⟨p, hp, he⟩ := List.mem_map.1 ha
    rw [← he]
    exact hp
  have hbg : b.1 ∈ projGroups t := by
    obtain ⟨p, hp, he⟩ := List.mem_map.1 hb
    rw [← he]
    exact hp
  unfold wSortRel at hr
  by_cases hyb : strip b.1 = ""
  · by_cases hxa : strip a.1 = ""
    · exact Or.inl ⟨hxa, hyb⟩
    · exact Or.inr (Or.inl ⟨hxa, hyb⟩)
  · have hbmem : b.1 ∈ ordered t :=
      mem_ordered.2 (mem_allProjections_of_groups hbg hyb)
    have hblt : (ordered t).indexOf b.1 < (ordered t).length :=
      List.indexOf_lt_length.2 hbmem
    have halt : (ordered t).indexOf a.1 < (ordered t).length :=
      lt_of_le_of_lt hr hblt
    have hget_a : (ordered t)[(ordered t).indexOf a.1] = a.1 :=
      List.getElem_indexOf halt
    have hget_b : (ordered t)[(ordered t).indexOf b.1] = b.1 :=
      List.getElem_indexOf hblt
    rcases lt_or_eq_of_le hr with hlt | heq
    · have hp := List.pairwise_iff_getElem.1 (pairwise_claimOrd_ordered t)
        _ _ halt hblt hlt
      rw [hget_a, hget_b] at hp
      exact hp
    · have hamem : a.1 ∈ ordered t := List.indexOf_lt_length.1 halt
      have hab : a.1 = b.1 := (List.indexOf_inj hamem hbmem).1 heq
      rw [hab]
      exact claimOrd_refl _

/-- **C3** (weekly summary row order): for every cleaned table, the
rows of `get_weekly_inflow_summary()` appear in the claimed order —
sorted inflow labels (by the `_sort_key` month/week/alphabetical
triple) first, then dispute labels alphabetically, with any label
recognized by neither list after all recognized ones; on the
specification's six February week labels the output is exactly the
listed order. -/
theorem claim_C3_weekly_order :
    (∀ t : Table, List.Pairwise claimOrd ((weeklySummary t).map WRow.projection)) ∧
    (weeklySummary tableC3).map WRow.projection =
      ["Feb Current week", "Feb 1st week", "Feb 2nd week", "Feb 3rd week",
        "Feb 4th week", "Feb Last week"] :=
  ⟨weeklySummary_pairwise, by decide⟩

/-! ## `get_due_wise_outstanding` -/

/-- The whitelist of valid remark categories. -/
def validRemarks : List String :=
  ["future due", "current due", "overdue", "credit memo", "unapplied"]

/-- `filtered_df["Remarks"] = filtered_df["Remarks"].str.strip()`. -/
def stripRemarks (t : Table) : Table :=
  t.map (fun r => {r with remarks := strip r.remarks})

/-- The filtered rows of `get_due_wise_outstanding`: strip remarks,
drop rows whose lowered remark is `"internal"`, and keep only the
whitelist. -/
def dueFiltered (t : Table) : List Row :=
  ((stripRemarks t).filter (fun r => !(lowerStr r.remarks == "internal"))).filter
    (fun r => decide (lowerStr r.remarks ∈ validRemarks))

/-- Sorted `groupby("Remarks")` keys of the filtered rows. -/
def dueKeys (t : Table) : List String :=
  List.insertionSort strRel (uniqueFirst ((dueFiltered t).map Row.remarks))

/-- The grouped due-wise aggregation: per remark, amount sum and
invoice count. -/
def dueGrouped (t : Table) : List (String × ℚ × ℕ) :=
  (dueKeys t).map (fun k =>
    (k, sumUSD ((dueFiltered t).filter (fun r => r.remarks == k)),
      ((dueFiltered t).filter (fun r => r.remarks == k)).length))

/-- `sort_values("Total Outstanding (USD)", ascending=False)`. -/
def dueDescRel (a b : String × ℚ × ℕ) : Prop := b.2.1 ≤ a.2.1

instance : DecidableRel dueDescRel := fun a b => by
  unfold dueDescRel
  infer_instance

instance : IsTotal (String × ℚ × ℕ) dueDescRel := ⟨fun a b => le_total b.2.1 a.2.1⟩

instance : IsTrans (String × ℚ × ℕ) dueDescRel :=
  ⟨fun _ _ _ hab hbc => le_trans hbc hab⟩

/-- Due-wise grouped rows after the descending sort. -/
def dueRows (t : Table) : List (String × ℚ × ℕ) :=
  List.insertionSort dueDescRel (dueGrouped t)

/-- `grouped["Total Outstanding (USD)"].sum()`. -/
def dueGrand (t : Table) : ℚ := ((dueRows t).map (fun g => g.2.1)).sum

/-- One output row of `get_due_wise_outstanding`. -/
structure DWRow where
  remarks : String
  total : ℚ
  invoiceCount : ℕ
  pctOfTotal : ℚ
deriving DecidableEq

/-- `get_due_wise_outstanding`. -/
def dueSummary (t : Table) : List DWRow :=
  (dueRows t).map (fun g =>
    ⟨g.1, g.2.1, g.2.2,
      if 0 < dueGrand t then round2 (g.2.1 / dueGrand t * 100) else 0⟩)

/-- The sum of the `Total Outstanding (USD)` column of
`get_due_wise_outstanding()`. -/
def dueWiseSum (t : Table) : ℚ := ((dueSummary t).map DWRow.total).sum

/-! ## The `X`-wise outstanding pivots -/

/-- The canonical total column name. -/
def totalName : String := "Total Outstanding (USD)"

/-- One row of a pivoted "X-wise outstanding" result: the dimension
value, the cells of the remark columns (in column order), and the
appended `Total Outstanding (USD)`. -/
structure PRow where
  dim : String
  cells : List (String × ℚ)
  total : ℚ
deriving DecidableEq

/-- `sort_values("Total Outstanding (USD)", ascending=False)` on pivot
rows. -/
def pDescRel (a b : PRow) : Prop := b.total ≤ a.total

instance : DecidableRel pDescRel := fun a b => by
  unfold pDescRel
  infer_instance

instance : IsTotal PRow pDescRel := ⟨fun a b => le_total b.total a.total⟩

instance : IsTrans PRow pDescRel := ⟨fun _ _ _ hab hbc => le_trans hbc hab⟩

/-- The pivot's column list before the canonical additions: sorted
distinct remark values (`pivot_table` sorts its columns). -/
def pivotCols0 (rows : List Row) (remOf : Row → String) : List String :=
  List.insertionSort strRel (uniqueFirst (rows.map remOf))

/-- Ensure the canonical `"Current Due"` column exists (appended when
missing, as `pivot[col] = 0.0` appends a column). -/
def pivotCols1 (rows : List Row) (remOf : Row → String) : List String :=
  if "Current Due" ∈ pivotCols0 rows remOf then pivotCols0 rows remOf
  else pivotCols0 rows remOf ++ ["Current Due"]

/-- Ensure the canonical `"Overdue"` column exists. -/
def pivotCols2 (rows : List Row) (remOf : Row → String) : List String :=
  if "Overdue" ∈ pivotCols1 rows remOf then pivotCols1 rows remOf
  else pivotCols1 rows remOf ++ ["Overdue"]

/-- The pivot's remark-column list: the columns after the canonical
additions, excluding the total column name (the `remark_cols` list
comprehension of the source). -/
def pivotRemCols (rows : List Row) (remOf : Row → String) : List String :=
  (pivotCols2 rows remOf).filter (fun c => !(c = totalName))

/-- The pivoted rows before the descending sort: one row per sorted
distinct dimension value, with a cell per remark column
(`fill_value=0.0` for absent combinations) and the appended row-wise
total. -/
def pivotRowsRaw (rows : List Row) (dimOf remOf : Row → String) : List PRow :=
  (List.insertionSort strRel (uniqueFirst (rows.map dimOf))).map (fun d =>
    let cells := (pivotRemCols rows remOf).map (fun c =>
      (c, sumUSD (rows.filter (fun r => dimOf r == d && remOf r == c))))
    PRow.mk d cells ((cells.map Prod.snd).sum))

/-- The shared pivot pattern of every "X-wise outstanding"
aggregation, returning `(remark columns, rows sorted by total
descending)`. -/
def pivotCore (rows : List Row) (dimOf remOf : Row → String) :
    List String × List PRow :=
  (pivotRemCols rows remOf, List.insertionSort pDescRel (pivotRowsRaw rows dimOf remOf))

/-- The rows kept by `get_customer_wise_outstanding` /
`get_allocation_wise_outstanding`: remarks stripped, internal remarks
dropped. -/
def remarksKept (t : Table) : List Row :=
  (stripRemarks t).filter (fun r => !(lowerStr r.remarks == "internal"))

/-- The rows kept by `get_business_wise_outstanding`: org names
stripped, internal org names dropped (remarks are not filtered
there). -/
def businessKept (t : Table) : List Row :=
  (t.map (fun r => {r with newOrgName := strip r.newOrgName})).filter
    (fun r => !(lowerStr r.newOrgName == "internal"))

/-- `get_customer_wise_outstanding`. -/
def customerWise (t : Table) : List String × List PRow :=
  pivotCore (remarksKept t) Row.customerName Row.remarks

/-- `get_business_wise_outstanding`. -/
def businessWise (t : Table) : List String × List PRow :=
  pivotCore (businessKept t) Row.newOrgName Row.remarks

/-- `get_allocation_wise_outstanding`. -/
def allocationWise (t : Table) : List String × List PRow :=
  pivotCore (remarksKept t) Row.allocation Row.remarks

/-- `get_entities_wise_outstanding`: no filtering. -/
def entitiesWise (t : Table) : List String × List PRow :=
  pivotCore t Row.entities Row.remarks

/-! ## Drill-down detail extraction -/

/-- The display columns of `get_projection_detail` /
`get_due_wise_detail`. -/
structure DRow where
  customerName : String
  reference : String
  newOrgName : String
  arComments : String
  arStatus : String
  totalUSD : ℚ
deriving DecidableEq

def toDRow (r : Row) : DRow :=
  ⟨r.customerName, r.reference, r.newOrgName, r.arComments, r.arStatus, r.totalUSD⟩

/-- The display columns of `get_customer_wise_detail` /
`get_business_wise_detail` (adds `Remarks`). -/
structure CRow where
  customerName : String
  reference : String
  newOrgName : String
  arComments : String
  arStatus : String
  remarks : String
  totalUSD : ℚ
deriving DecidableEq

def toCRow (r : Row) : CRow :=
  ⟨r.customerName, r.reference, r.newOrgName, r.arComments, r.arStatus,
    r.remarks, r.totalUSD⟩

/-- The display columns of `get_allocation_remark_detail` (adds
`Allocation` and `Remarks`). -/
structure ARow where
  customerName : String
  reference : String
  newOrgName : String
  allocation : String
  arComments : String
  arStatus : String
  remarks : String
  totalUSD : ℚ
deriving DecidableEq

def toARow (r : Row) : ARow :=
  ⟨r.customerName, r.reference, r.newOrgName, r.allocation, r.arComments,
    r.arStatus, r.remarks, r.totalUSD⟩

/-- `sort_values("Total in USD", ascending=False)` on detail rows. -/
def dDescRel (a b : DRow) : Prop := b.totalUSD ≤ a.totalUSD

instance : DecidableRel dDescRel := fun a b => by
  unfold dDescRel
  infer_instance

instance : IsTotal DRow dDescRel := ⟨fun a b => le_total b.totalUSD a.totalUSD⟩

instance : IsTrans DRow dDescRel := ⟨fun _ _ _ hab hbc => le_trans hbc hab⟩

def cDescRel (a b : CRow) : Prop := b.totalUSD ≤ a.totalUSD

instance : DecidableRel cDescRel := fun a b => by
  unfold cDescRel
  infer_instance

instance : IsTotal CRow cDescRel := ⟨fun a b => le_total b.totalUSD a.totalUSD⟩

instance : IsTrans CRow cDescRel := ⟨fun _ _ _ hab hbc => le_trans hbc hab⟩

def aDescRel (a b : ARow) : Prop := b.totalUSD ≤ a.totalUSD

instance : DecidableRel aDescRel := fun a b => by
  unfold aDescRel
  infer_instance

instance : IsTotal ARow aDescRel := ⟨fun a b => le_total b.totalUSD a.totalUSD⟩

instance : IsTrans ARow aDescRel := ⟨fun _ _ _ hab hbc => le_trans hbc hab⟩

/-- `get_projection_detail`: exact-equality filter on `Projection`
(note: no strip/lower normalisation in the source). -/
def projectionDetail (t : Table) (v : String) : List DRow :=
  List.insertionSort dDescRel ((t.filter (fun r => r.projection == v)).map toDRow)

/-- `get_due_wise_detail`: case/whitespace-insensitive filter on
`Remarks`. -/
def dueWiseDetail (t : Table) (v : String) : List DRow :=
  List.insertionSort dDescRel
    ((t.filter (fun r => norm r.remarks == norm v)).map toDRow)

/-- `get_customer_wise_detail`: case/whitespace-insensitive filter on
`Customer Name`. -/
def customerDetail (t : Table) (v : String) : List CRow :=
  List.insertionSort cDescRel
    ((t.filter (fun r => norm r.customerName == norm v)).map toCRow)

/-- `get_business_wise_detail`: case/whitespace-insensitive filter on
`New Org Name`. -/
def businessDetail (t : Table) (v : String) : List CRow :=
  List.insertionSort cDescRel
    ((t.filter (fun r => norm r.newOrgName == norm v)).map toCRow)

/-- `get_allocation_remark_detail`: case/whitespace-insensitive filter
on `Allocation` and `Remarks`. -/
def allocationRemarkDetail (t : Table) (a v : String) : List ARow :=
  List.insertionSort aDescRel
    ((t.filter (fun r => norm r.allocation == norm a && norm r.remarks == norm v)).map
      toARow)

/-! ## The identifier-column cleaning step of `ARDataModel._clean` -/

/-- `df[col].replace("", pd.NA)` on one cell. -/
def blankToNA : Option String → Option String
  | some s => if s = "" then none else some s
  | none => none

/-- `Series.ffill()`: each missing cell takes the most recent
non-missing value above it (the carried value starts missing). -/
def ffillAux (carry : Option String) : List (Option String) → List (Option String)
  | [] => []
  | none :: xs => carry :: ffillAux carry xs
  | some v :: xs => some v :: ffillAux (some v) xs

/-- The identifier-column treatment of `_clean` (step 1):
`df[col].replace("", pd.NA).ffill()`. -/
def cleanIdCol (col : List (Option String)) : List (Option String) :=
  ffillAux none (col.map blankToNA)

/-! ## C9: forward-fill idempotence -/

lemma ffillAux_idem (c : Option String) (l : List (Option String)) :
    ffillAux c (ffillAux c l) = ffillAux c l := by
  induction l generalizing c with
  | nil => rfl
  | cons x xs ih =>
    cases x with
    | none =>
      cases c with
      | none => simp only [ffillAux, ih]
      | some v => simp only [ffillAux, ih]
    | some v => simp only [ffillAux, ih]

lemma blankToNA_ne_blank (x : Option String) : blankToNA x ≠ some "" := by
  cases x with
  | none => simp [blankToNA]
  | some s =>
    by_cases h : s = "" <;> simp [blankToNA, h]

lemma ffillAux_noBlank {c : Option String} {l : List (Option String)}
    (hc : c ≠ some "") (hl : ∀ x ∈ l, x ≠ some "") :
    ∀ x ∈ ffillAux c l, x ≠ some "" := by
  induction l generalizing c with
  | nil => simp [ffillAux]
  | cons y ys ih =>
    cases y with
    | none =>
      intro x hx
      rcases List.mem_cons.1 hx with rfl | hx
      · exact hc
      · exact ih hc (fun z hz => hl z (by simp [hz])) x hx
    | some v =>
      intro x hx
      rcases List.mem_cons.1 hx with rfl | hx
      · exact hl (some v) (by simp)
      · exact ih (hl (some v) (by simp)) (fun z hz => hl z (by simp [hz])) x hx

lemma blankToNA_of_ne {x : Option String} (h : x ≠ some "") : blankToNA x = x := by
  cases x with
  | none => rfl
  | some s =>
    have : s ≠ "" := fun hcon => h (by rw [hcon])
    simp [blankToNA, this]

/-- **C9** (forward-fill idempotence): running the identifier-column
cleaning step (`replace("", pd.NA).ffill()`) a second time on an
already-cleaned column leaves it unchanged. -/
theorem claim_C9_ffill_idempotent (col : List (Option String)) :
    cleanIdCol (cleanIdCol col) = cleanIdCol col := by
  unfold cleanIdCol
  have h1 : ∀ x ∈ col.map blankToNA, x ≠ some "" := by
    intro x hx
    obtain ⟨y, -, rfl⟩ := List.mem_map.1 hx
    exact blankToNA_ne_blank y
  have h2 : ∀ x ∈ ffillAux none (col.map blankToNA), x ≠ some "" :=
    ffillAux_noBlank (by simp) h1
  have h3 : (ffillAux none (col.map blankToNA)).map blankToNA =
      ffillAux none (col.map blankToNA) := by
    calc (ffillAux none (col.map blankToNA)).map blankToNA
        = (ffillAux none (col.map blankToNA)).map id :=
          List.map_congr_left (fun x hx => blankToNA_of_ne (h2 x hx))
      _ = ffillAux none (col.map blankToNA) := List.map_id _
  rw [h3, ffillAux_idem]

/-! ## C8: unknown drill-down keys -/

/-- A non-empty sample table for the drill-down witnesses. -/
def tableC8 : Table := [mkRow "Feb 1st week" "Current Due" 10]

/-- **C8** (unknown drill-down key): on every cleaned table, filtering
a drill-down by a dimension value matching no row yields the empty
(but structurally well-formed, with the fixed display column set of
`DRow`/`CRow`) detail table, and is a total operation — it cannot
raise. -/
theorem claim_C8_unknown_drilldown (t : Table) (v : String) :
    ((∀ r ∈ t, r.projection ≠ v) → projectionDetail t v = []) ∧
    ((∀ r ∈ t, norm r.remarks ≠ norm v) → dueWiseDetail t v = []) ∧
    ((∀ r ∈ t, norm r.customerName ≠ norm v) → customerDetail t v = []) := by
  refine ⟨fun h => ?_, fun h => ?_, fun h => ?_⟩
  · unfold projectionDetail
    rw [List.filter_eq_nil_iff.2 (fun r hr => by simpa using h r hr)]
    rfl
  · unfold dueWiseDetail
    rw [List.filter_eq_nil_iff.2 (fun r hr => by simpa using h r hr)]
    rfl
  · unfold customerDetail
    rw [List.filter_eq_nil_iff.2 (fun r hr => by simpa using h r hr)]
    rfl

/-- Concrete instantiation of `claim_C8_unknown_drilldown`:
`"NonExistent"` on a non-empty table gives empty results. -/
theorem claim_C8_witness :
    projectionDetail tableC8 "NonExistent" = [] ∧
    dueWiseDetail tableC8 "NonExistent" = [] ∧
    customerDetail tableC8 "NonExistent" = [] :=
  ⟨(claim_C8_unknown_drilldown tableC8 "NonExistent").1 (by decide),
    (claim_C8_unknown_drilldown tableC8 "NonExistent").2.1 (by decide),
    (claim_C8_unknown_drilldown tableC8 "NonExistent").2.2 (by decide)⟩

/-! ## C7: case/whitespace-insensitive drill-down matching -/

/-- A table on which `get_projection_detail` distinguishes two filter
values that agree after strip+lower. -/
def tableC7 : Table := [mkRow "Abc" "Current Due" 1]

/-- **C7, counterexample**: `get_projection_detail` filters by exact
equality on `Projection`, so two filter values that are equal after
trimming and lowercasing can return different row sets — the claim is
false for `get_projection_detail`. -/
theorem claim_C7_counterexample :
    norm "abc" = norm "Abc" ∧
    projectionDetail tableC7 "abc" ≠ projectionDetail tableC7 "Abc" := by
  constructor
  · decide
  · decide

/-- **C7 (amended)**: drill-down matching is case/whitespace-insensitive
on the filter key for `get_due_wise_detail`, `get_customer_wise_detail`,
`get_business_wise_detail` and `get_allocation_remark_detail` — two
filter values equal after trimming and lowercasing give identical
results; `get_projection_detail`, however, matches the projection value
exactly. -/
theorem claim_C7_case_insensitive (t : Table) (v w : String)
    (h : norm v = norm w) :
    dueWiseDetail t v = dueWiseDetail t w ∧
    customerDetail t v = customerDetail t w ∧
    businessDetail t v = businessDetail t w ∧
    ∀ a : String, allocationRemarkDetail t a v = allocationRemarkDetail t a w := by
  refine ⟨?_, ?_, ?_, fun a => ?_⟩ <;>
    simp only [dueWiseDetail, customerDetail, businessDetail,
      allocationRemarkDetail, h]

/-- Concrete instantiation of `claim_C7_case_insensitive` on the
specification's example: `"current due"` vs `"CURRENT DUE"`. -/
theorem claim_C7_witness :
    dueWiseDetail tableC7 "current due" = dueWiseDetail tableC7 "CURRENT DUE" :=
  (claim_C7_case_insensitive tableC7 "current due" "CURRENT DUE" (by decide)).1

/-! ## C10: the zeroing guard applies to all non-positive grand totals -/

lemma map_eq_replicate_zero {α : Type} (l : List α) :
    l.map (fun _ => (0 : ℚ)) = List.replicate l.length 0 := by
  induction l with
  | nil => rfl
  | cons x xs ih => simp [List.replicate, ih]

/-- **C10** (implicit edge case): the percentage guard in
`get_weekly_inflow_summary` and `get_due_wise_outstanding` is
`grand_total > 0`, so a strictly negative grand total also zeroes the
whole `% of Total` column — the guard covers all non-positive grand
totals, not only an exactly-zero one. -/
theorem claim_C10_negative_grand (t : Table) :
    (weeklyGrand t < 0 → (weeklySummary t).map WRow.pctOfTotal =
      List.replicate (weeklySummary t).length 0) ∧
    (dueGrand t < 0 → (dueSummary t).map DWRow.pctOfTotal =
      List.replicate (dueSummary t).length 0) := by
  constructor
  · intro h
    have hng : ¬0 < weeklyGrand t := not_lt.mpr h.le
    unfold weeklySummary
    rw [List.map_map, List.length_map]
    have he : (WRow.pctOfTotal ∘ fun g : String × ℚ × ℕ =>
        WRow.mk g.1 g.2.1 g.2.2
          (if 0 < weeklyGrand t then round2 (g.2.1 / weeklyGrand t * 100) else 0)) =
        fun _ => (0 : ℚ) := by
      funext g
      simp [Function.comp, if_neg hng]
    rw [he, map_eq_replicate_zero]
  · intro h
    have hng : ¬0 < dueGrand t := not_lt.mpr h.le
    unfold dueSummary
    rw [List.map_map, List.length_map]
    have he : (DWRow.pctOfTotal ∘ fun g : String × ℚ × ℕ =>
        DWRow.mk g.1 g.2.1 g.2.2
          (if 0 < dueGrand t then round2 (g.2.1 / dueGrand t * 100) else 0)) =
        fun _ => (0 : ℚ) := by
      funext g
      simp [Function.comp, if_neg hng]
    rw [he, map_eq_replicate_zero]

/-- A cleaned table whose single invoice amount is negative. -/
def tableC10 : Table := [mkRow "Feb 1st week" "Current Due" (-5)]

/-- Concrete instantiation of `claim_C10_negative_grand` on a table
with a strictly negative grand total. -/
theorem claim_C10_witness :
    (weeklySummary tableC10).map WRow.pctOfTotal =
      List.replicate (weeklySummary tableC10).length 0 ∧
    (dueSummary tableC10).map DWRow.pctOfTotal =
      List.replicate (dueSummary tableC10).length 0 := by
  have h1 : weeklyGrand tableC10 < 0 := by
    have e : weeklyGrand tableC10 = -5 + 0 + 0 := rfl
    rw [e]
    norm_num
  have h2 : dueGrand tableC10 < 0 := by
    have e : dueGrand tableC10 = -5 + 0 + 0 := rfl
    rw [e]
    norm_num
  exact ⟨(claim_C10_negative_grand tableC10).1 h1,
    (claim_C10_negative_grand tableC10).2 h2⟩

/-! ## C5: percentage normalization -/

lemma abs_round2_err (x : ℚ) : |round2 x - x| ≤ 1 / 200 := by
  unfold round2
  have h := abs_sub_round (x * 100)
  rw [abs_sub_comm] at h
  have he : (round (x * 100) : ℚ) / 100 - x = ((round (x * 100) : ℚ) - x * 100) / 100 := by
    ring
  rw [he, abs_div, show |(100 : ℚ)| = 100 by norm_num]
  linarith

lemma sum_round2_err (l : List ℚ) :
    |(l.map round2).sum - l.sum| ≤ l.length * (1 / 200) := by
  induction l with
  | nil => simp
  | cons x xs ih =>
    simp only [List.map_cons, List.sum_cons, List.length_cons]
    have h1 := abs_round2_err x
    have hsplit : round2 x + (xs.map round2).sum - (x + xs.sum) =
        (round2 x - x) + ((xs.map round2).sum - xs.sum) := by ring
    calc |round2 x + (xs.map round2).sum - (x + xs.sum)|
        = |(round2 x - x) + ((xs.map round2).sum - xs.sum)| := by rw [hsplit]
      _ ≤ |round2 x - x| + |(xs.map round2).sum - xs.sum| := abs_add _ _
      _ ≤ 1 / 200 + xs.length * (1 / 200) := add_le_add h1 ih
      _ = (xs.length + 1 : ℕ) * (1 / 200) := by push_cast; ring

lemma sum_map_mul (c : ℚ) (l : List ℚ) :
    (l.map (fun a => a * c)).sum = l.sum * c := by
  induction l with
  | nil => simp
  | cons x xs ih => simp [ih, add_mul]

lemma pct_sum_bound {G : ℚ} (hG : 0 < G) (l : List ℚ) (hsum : l.sum = G) :
    |(l.map (fun a => round2 (a / G * 100))).sum - 100| ≤ l.length * (1 / 200) := by
  have hfe : (fun a : ℚ => a / G * 100) = fun a => a * (100 / G) :=
    funext fun a => by ring
  have hsum' : (l.map (fun a => a / G * 100)).sum = 100 := by
    rw [hfe, sum_map_mul, hsum]
    field_simp
  have hmap : l.map (fun a => round2 (a / G * 100)) =
      (l.map (fun a => a / G * 100)).map round2 := by
    rw [List.map_map]
    rfl
  have hlen : (l.map (fun a => a / G * 100)).length = l.length := List.length_map _ _
  rw [hmap]
  have hb := sum_round2_err (l.map (fun a => a / G * 100))
  rw [hsum', hlen] at hb
  exact hb

lemma weeklyRows_sum (t : Table) :
    ((weeklyRows t).map (fun g => g.2.1)).sum = weeklyGrand t :=
  (((List.perm_insertionSort (wSortRel (ordered t)) (weeklyGrouped t))).map _).sum_eq

lemma dueRows_sum (t : Table) :
    ((dueRows t).map (fun g => g.2.1)).sum = dueGrand t := rfl

/-- **C5** (percentage normalization): in both
`get_weekly_inflow_summary()` and `get_due_wise_outstanding()`, when
the grand total is positive every `% of Total` entry is the row's
amount over the grand total, times 100, rounded to two decimals, and
the column sums to 100 within the rounding tolerance of half a unit in
the second decimal place per row; when the grand total is zero the
whole column is 0 (no division by zero). -/
theorem claim_C5_percentages (t : Table) :
    (0 < weeklyGrand t →
      (weeklySummary t).map WRow.pctOfTotal =
        (weeklyRows t).map (fun g => round2 (g.2.1 / weeklyGrand t * 100))) ∧
    (0 < weeklyGrand t →
      |((weeklySummary t).map WRow.pctOfTotal).sum - 100| ≤
        (weeklySummary t).length * (1 / 200)) ∧
    (weeklyGrand t = 0 →
      (weeklySummary t).map WRow.pctOfTotal =
        List.replicate (weeklySummary t).length 0) ∧
    (0 < dueGrand t →
      (dueSummary t).map DWRow.pctOfTotal =
        (dueRows t).map (fun g => round2 (g.2.1 / dueGrand t * 100))) ∧
    (0 < dueGrand t →
      |((dueSummary t).map DWRow.pctOfTotal).sum - 100| ≤
        (dueSummary t).length * (1 / 200)) ∧
    (dueGrand t = 0 →
      (dueSummary t).map DWRow.pctOfTotal =
        List.replicate (dueSummary t).length 0) := by
  have hw1 : ∀ h : 0 < weeklyGrand t,
      (weeklySummary t).map WRow.pctOfTotal =
        (weeklyRows t).map (fun g => round2 (g.2.1 / weeklyGrand t * 100)) := by
    intro h
    unfold weeklySummary
    rw [List.map_map]
    refine List.map_congr_left fun g _ => ?_
    simp [Function.comp, if_pos h]
  have hd1 : ∀ h : 0 < dueGrand t,
      (dueSummary t).map DWRow.pctOfTotal =
        (dueRows t).map (fun g => round2 (g.2.1 / dueGrand t * 100)) := by
    intro h
    unfold dueSummary
    rw [List.map_map]
    refine List.map_congr_left fun g _ => ?_
    simp [Function.comp, if_pos h]
  refine ⟨hw1, fun h => ?_, fun h => ?_, hd1, fun h => ?_, fun h => ?_⟩
  · rw [hw1 h]
    have hmm : (weeklyRows t).map (fun g => round2 (g.2.1 / weeklyGrand t * 100)) =
        ((weeklyRows t).map (fun g => g.2.1)).map
          (fun a => round2 (a / weeklyGrand t * 100)) := by
      rw [List.map_map]
      rfl
    rw [hmm]
    have hb := pct_sum_bound h ((weeklyRows t).map (fun g => g.2.1)) (weeklyRows_sum t)
    have hlen : ((weeklyRows t).map (fun g => g.2.1)).length = (weeklySummary t).length := by
      unfold weeklySummary
      rw [List.length_map, List.length_map]
    rw [hlen] at hb
    exact hb
  · have hng : ¬0 < weeklyGrand t := by rw [h]; exact lt_irrefl 0
    unfold weeklySummary
    rw [List.map_map, List.length_map]
    have he : (WRow.pctOfTotal ∘ fun g : String × ℚ × ℕ =>
        WRow.mk g.1 g.2.1 g.2.2
          (if 0 < weeklyGrand t then round2 (g.2.1 / weeklyGrand t * 100) else 0)) =
        fun _ => (0 : ℚ) := by
      funext g
      simp [Function.comp, if_neg hng]
    rw [he, map_eq_replicate_zero]
  · rw [hd1 h]
    have hmm : (dueRows t).map (fun g => round2 (g.2.1 / dueGrand t * 100)) =
        ((dueRows t).map (fun g => g.2.1)).map
          (fun a => round2 (a / dueGrand t * 100)) := by
      rw [List.map_map]
      rfl
    rw [hmm]
    have hb := pct_sum_bound h ((dueRows t).map (fun g => g.2.1)) (dueRows_sum t)
    have hlen : ((dueRows t).map (fun g => g.2.1)).length = (dueSummary t).length := by
      unfold dueSummary
      rw [List.length_map, List.length_map]
    rw [hlen] at hb
    exact hb
  · have hng : ¬0 < dueGrand t := by rw [h]; exact lt_irrefl 0
    unfold dueSummary
    rw [List.map_map, List.length_map]
    have he : (DWRow.pctOfTotal ∘ fun g : String × ℚ × ℕ =>
        DWRow.mk g.1 g.2.1 g.2.2
          (if 0 < dueGrand t then round2 (g.2.1 / dueGrand t * 100) else 0)) =
        fun _ => (0 : ℚ) := by
      funext g
      simp [Function.comp, if_neg hng]
    rw [he, map_eq_replicate_zero]

/-- Concrete instantiation of `claim_C5_percentages`: positive grand
totals on a one-row table, and zero grand totals on the empty table. -/
theorem claim_C5_witness :
    (|((weeklySummary tableC8).map WRow.pctOfTotal).sum - 100| ≤
      (weeklySummary tableC8).length * (1 / 200)) ∧
    (|((dueSummary tableC8).map DWRow.pctOfTotal).sum - 100| ≤
      (dueSummary tableC8).length * (1 / 200)) ∧
    (weeklySummary ([] : Table)).map WRow.pctOfTotal =
      List.replicate (weeklySummary ([] : Table)).length 0 := by
  have h1 : 0 < weeklyGrand tableC8 := by
    have e : weeklyGrand tableC8 = 10 + 0 + 0 := rfl
    rw [e]
    norm_num
  have h2 : 0 < dueGrand tableC8 := by
    have e : dueGrand tableC8 = 10 + 0 + 0 := rfl
    rw [e]
    norm_num
  have h3 : weeklyGrand ([] : Table) = 0 := rfl
  exact ⟨(claim_C5_percentages tableC8).2.1 h1,
    (claim_C5_percentages tableC8).2.2.2.2.1 h2,
    (claim_C5_percentages ([] : Table)).2.2.1 h3⟩

/-! ## C6: due-wise bound -/

lemma sum_groups (f : Row → String) :
    ∀ (keys : List String) (rows : List Row), keys.Nodup →
      (∀ r ∈ rows, f r ∈ keys) →
      (keys.map (fun k => sumUSD (rows.filter (fun r => f r == k)))).sum =
        sumUSD rows := by
  intro keys
  induction keys with
  | nil =>
    intro rows _ hcov
    have hnil : rows = [] := by
      cases rows with
      | nil => rfl
      | cons r rs => exact absurd (hcov r (by simp)) (by simp)
    rw [hnil]
    rfl
  | cons k ks ih =>
    intro rows hnd hcov
    simp only [List.map_cons, List.sum_cons]
    have hrest : ∀ k' ∈ ks,
        rows.filter (fun r => f r == k') =
          (rows.filter (fun r => !(f r == k))).filter (fun r => f r == k') := by
      intro k' hk'
      have hkk : k' ≠ k := by
        intro hcon
        rw [hcon] at hk'
        exact (List.nodup_cons.1 hnd).1 hk'
      clear hcov
      induction rows with
      | nil => rfl
      | cons r rs ihr =>
        by_cases hr : f r = k'
        · have hrk : ¬(f r = k) := by rw [hr]; exact hkk
          rw [List.filter_cons, if_pos (by simp [hr]), List.filter_cons,
            if_pos (by simp [hrk]), List.filter_cons, if_pos (by simp [hr]), ihr]
        · by_cases hrk : f r = k
          · rw [List.filter_cons, if_neg (by simp [hr]), List.filter_cons,
              if_neg (by simp [hrk]), ihr]
          · rw [List.filter_cons, if_neg (by simp [hr]), List.filter_cons,
              if_pos (by simp [hrk]), List.filter_cons, if_neg (by simp [hr]), ihr]
    have hmapeq : ks.map (fun k' => sumUSD (rows.filter (fun r => f r == k'))) =
        ks.map (fun k' =>
          sumUSD ((rows.filter (fun r => !(f r == k))).filter (fun r => f r == k'))) :=
      List.map_congr_left fun k' hk' => by rw [hrest k' hk']
    have hcov' : ∀ r ∈ rows.filter (fun r => !(f r == k)), f r ∈ ks := by
      intro r hr
      have h1 := List.mem_filter.1 hr
      have h2 := hcov r h1.1
      rcases List.mem_cons.1 h2 with hc | hc
      · exfalso
        have := h1.2
        rw [hc] at this
        simp at this
      · exact hc
    rw [hmapeq, ih (rows.filter (fun r => !(f r == k))) (List.nodup_cons.1 hnd).2 hcov',
      sumUSD_filter_split]

lemma dueKeys_nodup (t : Table) : (dueKeys t).Nodup :=
  (List.perm_insertionSort strRel _).nodup_iff.2 (nodup_uniqueFirst _)

lemma dueKeys_cover {t : Table} {r : Row} (hr : r ∈ dueFiltered t) :
    r.remarks ∈ dueKeys t := by
  unfold dueKeys
  rw [List.mem_insertionSort, mem_uniqueFirst]
  exact List.mem_map.2 ⟨r, hr, rfl⟩

/-- The sum of the due-wise `Total Outstanding (USD)` column equals
the amount sum of the filtered rows. -/
lemma dueWiseSum_eq (t : Table) : dueWiseSum t = sumUSD (dueFiltered t) := by
  unfold dueWiseSum dueSummary
  rw [List.map_map]
  have h1 : ((dueRows t).map (DWRow.total ∘ fun g : String × ℚ × ℕ =>
      DWRow.mk g.1 g.2.1 g.2.2
        (if 0 < dueGrand t then round2 (g.2.1 / dueGrand t * 100) else 0))).sum =
      ((dueRows t).map (fun g => g.2.1)).sum := by
    rfl
  rw [h1]
  have h2 : ((dueRows t).map (fun g => g.2.1)).sum =
      ((dueGrouped t).map (fun g => g.2.1)).sum :=
    ((List.perm_insertionSort dueDescRel (dueGrouped t)).map _).sum_eq
  rw [h2]
  unfold dueGrouped
  rw [List.map_map]
  have h3 : ((dueKeys t).map ((fun g : String × ℚ × ℕ => g.2.1) ∘ fun k =>
      (k, sumUSD ((dueFiltered t).filter (fun r => r.remarks == k)),
        ((dueFiltered t).filter (fun r => r.remarks == k)).length))) =
      (dueKeys t).map (fun k => sumUSD ((dueFiltered t).filter (fun r => r.remarks == k))) := by
    rfl
  rw [h3]
  exact sum_groups Row.remarks (dueKeys t) (dueFiltered t) (dueKeys_nodup t)
    (fun r hr => dueKeys_cover hr)

lemma sumUSD_filter_le (p : Row → Bool) (rows : List Row)
    (h : ∀ r ∈ rows, 0 ≤ r.totalUSD) :
    sumUSD (rows.filter p) ≤ sumUSD rows := by
  induction rows with
  | nil => simp [sumUSD]
  | cons r rs ih =>
    have hr0 := h r (by simp)
    have ih' := ih fun x hx => h x (by simp [hx])
    by_cases hp : p r
    · rw [List.filter_cons, if_pos (by simp [hp]), sumUSD_cons, sumUSD_cons]
      linarith
    · rw [List.filter_cons, if_neg (by simp [hp]), sumUSD_cons]
      linarith

lemma sumUSD_stripRemarks (t : Table) : sumUSD (stripRemarks t) = sumUSD t := by
  unfold stripRemarks sumUSD
  rw [List.map_map]
  rfl

/-- A cleaned table with a negative amount on a row that the due-wise
filter drops. -/
def tableC6 : Table := [mkRow "" "Current Due" 50, mkRow "" "Other" (-100)]

/-- **C6, counterexample**: with negative amounts (which `total_usd`
admits), dropping rows can *increase* the sum, so the due-wise sum can
exceed the table's grand total. -/
theorem claim_C6_counterexample :
    ¬(dueWiseSum tableC6 ≤ grandTotal tableC6) := by
  intro hcon
  have h1 : dueWiseSum tableC6 = 50 + 0 + 0 := rfl
  have h2 : grandTotal tableC6 = 50 + (-100 + 0) := rfl
  rw [h1, h2] at hcon
  norm_num at hcon

/-- **C6 (amended)**: for every cleaned table whose amounts are all
nonnegative, the sum of `Total Outstanding (USD)` over the rows of
`get_due_wise_outstanding()` — which keeps only non-"internal",
whitelisted remarks — is at most the sum of `Total in USD` over the
whole table. -/
theorem claim_C6_due_bound (t : Table) (h : ∀ r ∈ t, 0 ≤ r.totalUSD) :
    dueWiseSum t ≤ grandTotal t := by
  rw [dueWiseSum_eq]
  unfold dueFiltered grandTotal
  have hstrip : ∀ r ∈ stripRemarks t, 0 ≤ r.totalUSD := by
    intro r hr
    obtain ⟨r0, hr0, rfl⟩ := List.mem_map.1 hr
    exact h r0 hr0
  have hfil : ∀ r ∈ (stripRemarks t).filter (fun r => !(lowerStr r.remarks == "internal")),
      0 ≤ r.totalUSD := fun r hr => hstrip r (List.mem_filter.1 hr).1
  calc sumUSD (((stripRemarks t).filter
          (fun r => !(lowerStr r.remarks == "internal"))).filter
          (fun r => decide (lowerStr r.remarks ∈ validRemarks)))
      ≤ sumUSD ((stripRemarks t).filter (fun r => !(lowerStr r.remarks == "internal"))) :=
        sumUSD_filter_le _ _ hfil
    _ ≤ sumUSD (stripRemarks t) := sumUSD_filter_le _ _ hstrip
    _ = sumUSD t := sumUSD_stripRemarks t

/-- Concrete instantiation of `claim_C6_due_bound` on a nonnegative
table. -/
theorem claim_C6_witness : dueWiseSum tableC8 ≤ grandTotal tableC8 :=
  claim_C6_due_bound tableC8 (by decide)

/-! ## C4: canonical pivot shape -/

lemma mem_pivotCols1_CD (rows : List Row) (remOf : Row → String) :
    "Current Due" ∈ pivotCols1 rows remOf := by
  unfold pivotCols1
  split_ifs with h
  · exact h
  · simp

lemma mem_pivotCols2_of {rows : List Row} {remOf : Row → String} {x : String}
    (hx : x ∈ pivotCols1 rows remOf) : x ∈ pivotCols2 rows remOf := by
  unfold pivotCols2
  split_ifs with h
  · exact hx
  · exact List.mem_append_left _ hx

lemma mem_pivotCols2_OD (rows : List Row) (remOf : Row → String) :
    "Overdue" ∈ pivotCols2 rows remOf := by
  unfold pivotCols2
  split_ifs with h
  · exact h
  · simp

lemma mem_pivotRemCols_CD (rows : List Row) (remOf : Row → String) :
    "Current Due" ∈ pivotRemCols rows remOf := by
  unfold pivotRemCols
  exact List.mem_filter.2
    ⟨mem_pivotCols2_of (mem_pivotCols1_CD rows remOf), by decide⟩

lemma mem_pivotRemCols_OD (rows : List Row) (remOf : Row → String) :
    "Overdue" ∈ pivotRemCols rows remOf := by
  unfold pivotRemCols
  exact List.mem_filter.2 ⟨mem_pivotCols2_OD rows remOf, by decide⟩

lemma lookup_map_pair (f : String → ℚ) :
    ∀ {l : List String} {c : String}, c ∈ l →
      (l.map (fun x => (x, f x))).lookup c = some (f c) := by
  intro l
  induction l with
  | nil => intro c hc; simp at hc
  | cons a as ih =>
    intro c hc
    by_cases hca : c = a
    · subst hca
      simp [List.lookup]
    · have hc' : c ∈ as := by
        rcases List.mem_cons.1 hc with h | h
        · exact absurd h hca
        · exact h
      rw [List.map_cons, List.lookup_cons]
      have hbeq : (c == a) = false := by simpa using hca
      rw [hbeq]
      exact ih hc'

lemma pivotRowsRaw_total {rows : List Row} {dimOf remOf : Row → String} :
    ∀ pr ∈ pivotRowsRaw rows dimOf remOf,
      pr.total = (pr.cells.map Prod.snd).sum := by
  intro pr hpr
  obtain ⟨d, -, rfl⟩ := List.mem_map.1 hpr
  rfl

lemma pivotRowsRaw_zerofill {rows : List Row} {dimOf remOf : Row → String}
    {c : String} (hc : c ∈ pivotRemCols rows remOf)
    (hnone : ∀ r ∈ rows, remOf r ≠ c) :
    ∀ pr ∈ pivotRowsRaw rows dimOf remOf, pr.cells.lookup c = some 0 := by
  intro pr hpr
  obtain ⟨d, -, rfl⟩ := List.mem_map.1 hpr
  show ((pivotRemCols rows remOf).map (fun c' =>
    (c', sumUSD (rows.filter (fun r => dimOf r == d && remOf r == c'))))).lookup c
      = some 0
  rw [lookup_map_pair _ hc]
  have hnil : rows.filter (fun r => dimOf r == d && remOf r == c) = [] :=
    List.filter_eq_nil_iff.2 fun r hr => by simp [hnone r hr]
  rw [hnil]
  rfl

/-- The claimed canonical shape of one "X-wise outstanding" result
(over the rows `kept` that the aggregation retains): the canonical
`"Current Due"` and `"Overdue"` columns are always present; every
row's `Total Outstanding (USD)` is the row-wise sum of its category
cells; rows are sorted by that total descending; and a canonical
column that the kept data never mentions is all-zero. -/
def pivotOK (kept : List Row) (remOf : Row → String)
    (res : List String × List PRow) : Prop :=
  "Current Due" ∈ res.1 ∧
  "Overdue" ∈ res.1 ∧
  (∀ pr ∈ res.2, pr.total = (pr.cells.map Prod.snd).sum) ∧
  List.Pairwise pDescRel res.2 ∧
  (∀ c, (c = "Current Due" ∨ c = "Overdue") → (∀ r ∈ kept, remOf r ≠ c) →
    ∀ pr ∈ res.2, pr.cells.lookup c = some 0)

lemma pivotCore_ok (rows : List Row) (dimOf remOf : Row → String) :
    pivotOK rows remOf (pivotCore rows dimOf remOf) := by
  refine ⟨mem_pivotRemCols_CD rows remOf, mem_pivotRemCols_OD rows remOf,
    ?_, List.sorted_insertionSort _ _, ?_⟩
  · intro pr hpr
    rw [show (pivotCore rows dimOf remOf).2 =
        List.insertionSort pDescRel (pivotRowsRaw rows dimOf remOf) from rfl,
      List.mem_insertionSort] at hpr
    exact pivotRowsRaw_total pr hpr
  · intro c hcanon hnone pr hpr
    rw [show (pivotCore rows dimOf remOf).2 =
        List.insertionSort pDescRel (pivotRowsRaw rows dimOf remOf) from rfl,
      List.mem_insertionSort] at hpr
    have hc : c ∈ pivotRemCols rows remOf := by
      rcases hcanon with rfl | rfl
      · exact mem_pivotRemCols_CD rows remOf
      · exact mem_pivotRemCols_OD rows remOf
    exact pivotRowsRaw_zerofill hc hnone pr hpr

/-- **C4** (canonical pivot shape): every "X-wise outstanding" result
(customer, business, allocation, entities) contains the `"Current Due"`
and `"Overdue"` columns (all-zero when the retained data contains
neither), has `"Total Outstanding (USD)"` equal to the row-wise sum of
the category cells, and is sorted by that total descending. -/
theorem claim_C4_pivot_shape (t : Table) :
    pivotOK (remarksKept t) Row.remarks (customerWise t) ∧
    pivotOK (businessKept t) Row.remarks (businessWise t) ∧
    pivotOK (remarksKept t) Row.remarks (allocationWise t) ∧
    pivotOK t Row.remarks (entitiesWise t) :=
  ⟨pivotCore_ok _ _ _, pivotCore_ok _ _ _, pivotCore_ok _ _ _, pivotCore_ok _ _ _⟩

lemma map_eq_replicate_of_forall {α β : Type} (f : α → β) (l : List α) (v : β)
    (h : ∀ x ∈ l, f x = v) : l.map f = List.replicate l.length v := by
  induction l with
  | nil => rfl
  | cons x xs ih =>
    simp only [List.map_cons, List.length_cons, List.replicate]
    rw [h x (by simp), ih fun y hy => h y (by simp [hy])]

/-- The pivot scenario table of the specification: remark values
`{"Other"}` only, no `"Current Due"`/`"Overdue"` present. -/
def tableC4 : Table := [mkRow "" "Other" 7]

/-- Concrete instantiation of `claim_C4_pivot_shape`: on a table whose
only remark is `"Other"`, the customer-wise pivot still carries an
all-zero `"Current Due"` column. -/
theorem claim_C4_witness :
    (customerWise tableC4).2.map (fun pr => pr.cells.lookup "Current Due") =
      List.replicate (customerWise tableC4).2.length (some 0) := by
  have hz := (claim_C4_pivot_shape tableC4).1.2.2.2.2 "Current Due" (Or.inl rfl)
    (by decide)
  exact map_eq_replicate_of_forall _ _ _ hz

end ARDash
